import Mathlib

/-!
# Qt Bitcoin Trader: the profile selection / password dialog

A shallow embedding of `src/login/passworddialog.cpp`.

* `QString` is `String`; the few `QString` / `QFileInfo` functions the dialog
  uses are written out on the character list.
* The file system is a finite list of entries (directories and regular files
  with their key/value content) addressed by normalised paths, `.` and `..`
  resolved; a directory lists its names sorted, hidden names left out as the
  default filter of `QDir` does.  `QFile::exists`, `QFile::remove`,
  `QFile::copy`, `QDir::mkpath`, `QDir::rmdir` and `QDir::entryList` follow
  their documented behaviour: `exists` is true for directories as well,
  `remove` deletes regular files only, `rmdir` deletes empty directories only,
  `copy` never overwrites.
* Failures caused by permissions or by other processes are outside the model,
  with one exception: under `Q_OS_WIN` the lock marker of a profile cannot be
  removed while a running instance holds it open, which is what the lock check
  of the dialog tests.
* The application settings store `QtBitcoinTrader.cfg` is a key/value store of
  its own.
* The widgets are records holding the state the dialog reads or writes.
-/

namespace QtBitcoinTrader

/-! ## QString and QFileInfo -/

/-- Position of the last occurrence of `c` in a character list. -/
def lastIdx (c : Char) : List Char → Option Nat
  | [] => none
  | x :: xs =>
    match lastIdx c xs with
    | some i => some (i + 1)
    | none => if x = c then some 0 else none

/-- The function `QString::lastIndexOf(QChar)`: `-1` when `c` does not occur. -/
def lastIndexOf (s : String) (c : Char) : Int :=
  match lastIdx c s.data with
  | some i => (i : Int)
  | none => -1

/-- The function `QString::left(n)`: the whole string when `n` is negative or too large. -/
def left (s : String) (n : Int) : String :=
  if n < 0 ∨ n ≥ (s.data.length : Int) then s else ⟨s.data.take n.toNat⟩

/-- The function `QFileInfo::fileName()`: what follows the last `/`. -/
def fileName (s : String) : String :=
  match lastIdx '/' s.data with
  | some i => ⟨s.data.drop (i + 1)⟩
  | none => s

/-- The function `QFileInfo::completeBaseName()`: the file name up to, and without, its last `.`. -/
def completeBaseName (s : String) : String :=
  match lastIdx '.' (fileName s).data with
  | some i => ⟨(fileName s).data.take i⟩
  | none => fileName s

/-- Case folding used when a name is compared with a name filter. -/
def lower (s : String) : List Char := s.data.map Char.toLower

/-- Name filter of `QDir`: the filters of the dialog are a `*` followed by a
literal ending; `QDir` compares without regard to case. A filter without a
leading `*` has to equal the name. -/
def wildcardMatch (pattern name : String) : Bool :=
  match pattern.data with
  | '*' :: ending => (ending.map Char.toLower).isSuffixOf (lower name)
  | whole => whole.map Char.toLower == lower name

/-- Strip leading white space. -/
def dropSpaces (l : List Char) : List Char := l.dropWhile Char.isWhitespace

/-- Strip white space on both ends, as the number conversions of Qt do. -/
def trimmed (l : List Char) : List Char := (dropSpaces (dropSpaces l).reverse).reverse

/-- Value of a string of decimal digits; `none` when empty or not all digits. -/
def parseDigits (l : List Char) : Option Nat :=
  if l.isEmpty ∨ ¬ l.all Char.isDigit then none
  else some (l.foldl (fun acc c => 10 * acc + (c.toNat - 48)) 0)

/-- Signed decimal number written in a string, if there is one. -/
def parseInteger (s : String) : Option Int :=
  match trimmed s.data with
  | '-' :: ds => (parseDigits ds).map (fun n => -(n : Int))
  | '+' :: ds => (parseDigits ds).map (fun n => (n : Int))
  | ds => (parseDigits ds).map (fun n => (n : Int))

/-- The function `QString::toInt()`: `0` when the text is no number or does not fit an `int`. -/
def qstringToInt (s : String) : Int :=
  match parseInteger s with
  | some v => if -2147483648 ≤ v ∧ v ≤ 2147483647 then v else 0
  | none => 0

/-- The function `QVariant::toInt()` of a string variant, as Qt 5 has it: the
text is read as a `qlonglong` and then narrowed to `int`; `0` when it is no
64-bit number. -/
def qvariantToInt (s : String) : Int :=
  match parseInteger s with
  | some v =>
    if -9223372036854775808 ≤ v ∧ v ≤ 9223372036854775807
    then (v + 2147483648) % 4294967296 - 2147483648 else 0
  | none => 0

/-- Hexadecimal digit of a value below sixteen. -/
def hexDigit (n : Nat) : Char := "0123456789abcdef".data.getD n '0'

/-- The function `QByteArray::toHex()`: two lower-case digits per byte. -/
def toHex (bytes : List Nat) : String :=
  ⟨bytes.flatMap (fun b => [hexDigit (b / 16 % 16), hexDigit (b % 16)])⟩

/-! ## Paths and the file system -/

/-- A normalised path: the list of its components. -/
abbrev Path := List String

/-- Cut a character list at every `/`. -/
def splitSlash : List Char → List (List Char)
  | [] => [[]]
  | c :: cs =>
    if c = '/' then [] :: splitSlash cs
    else
      match splitSlash cs with
      | [] => [[c]]
      | h :: t => (c :: h) :: t

/-- Walk one raw component further: an empty component and `.` stay where
they are, `..` goes up, anything else goes down. -/
def stepDots (acc : Path) (c : List Char) : Path :=
  if c = [] ∨ c = ['.'] then acc
  else if c = ['.', '.'] then acc.dropLast
  else acc ++ [String.mk c]

/-- The path a string denotes: doubled and trailing separators do not matter,
`.` and `..` are resolved. -/
def toPath (s : String) : Path := (splitSlash s.data).foldl stepDots []

/-- A file-system entry is a directory or a regular file; the content of a file
is the list of key/value pairs `QSettings` reads from it. -/
inductive Node where
  | dir : Node
  | file (content : List (String × String)) : Node
  deriving DecidableEq, Repr

/-- The file system: its entries, each a path with what is stored there. -/
abbrev FileSystem := List (Path × Node)

/-- Entry stored at a path. -/
def nodeAt : FileSystem → Path → Option Node
  | [], _ => none
  | (q, n) :: rest, p => if q = p then some n else nodeAt rest p

/-- Is there a regular file at the path? -/
def isFileAt (fs : FileSystem) (p : Path) : Bool :=
  match nodeAt fs p with
  | some (Node.file _) => true
  | _ => false

/-- Is there a directory at the path? The root always is one. -/
def isDirAt (fs : FileSystem) (p : Path) : Bool :=
  p.isEmpty || nodeAt fs p == some Node.dir

/-- Drop every entry stored at a path. -/
def erasePath (fs : FileSystem) (p : Path) : FileSystem :=
  fs.filter (fun e => decide (e.1 ≠ p))

/-- Does some entry live directly inside the directory `p`? -/
def hasChild (fs : FileSystem) (p : Path) : Bool :=
  fs.any (fun e => !e.1.isEmpty && e.1.dropLast == p)

/-- The function `QFile::exists(path)`: true for regular files and for directories,
false for the empty string. -/
def qfileExists (fs : FileSystem) (s : String) : Bool :=
  !s.data.isEmpty && ((toPath s).isEmpty || (nodeAt fs (toPath s)).isSome)

/-- The function `QFile::remove(path)`: deletes a regular file; anything else is
left alone. The removal of a regular file is taken to succeed; the one removal
whose failure the dialog reckons with, that of a lock marker under `Q_OS_WIN`,
is `removeMarker`. -/
def qfileRemove (fs : FileSystem) (s : String) : FileSystem :=
  if isFileAt fs (toPath s) then erasePath fs (toPath s) else fs

/-- The function `QDir().rmdir(path)`: deletes a directory that is empty. -/
def qdirRmdir (fs : FileSystem) (s : String) : FileSystem :=
  if nodeAt fs (toPath s) == some Node.dir && !hasChild fs (toPath s)
  then erasePath fs (toPath s) else fs

/-- The non-empty initial segments of a path, shortest first. -/
def ancestorsAndSelf (p : Path) : List Path := (List.inits p).tail

/-- The function `QDir().mkpath(path)`: creates the directory and every missing
parent; nothing happens when a regular file is in the way. -/
def qdirMkpath (fs : FileSystem) (s : String) : FileSystem :=
  if (ancestorsAndSelf (toPath s)).any (isFileAt fs) then fs
  else fs ++ ((ancestorsAndSelf (toPath s)).filter (fun q => (nodeAt fs q).isNone)).map
    (fun q => (q, Node.dir))

/-- The function `QFile::copy(from, to)`: needs a regular file to copy, a
free target name and an existing target directory. -/
def qfileCopy (fs : FileSystem) (src dst : String) : FileSystem :=
  match nodeAt fs (toPath src) with
  | some (Node.file c) =>
    if (nodeAt fs (toPath dst)).isNone && !(toPath dst).isEmpty && isDirAt fs (toPath dst).dropLast
    then fs ++ [(toPath dst, Node.file c)] else fs
  | _ => fs

/-- What the dialog takes from the rest of the program: the globals `appDataDir`
and `baseValues`, the platform, the bundled exchange list and its signature
check, the resources, the translator and the hash function; with them, which lock
markers `QFile::remove` cannot delete under `Q_OS_WIN`, being held open by a
running instance of the program, and which entries carry the hidden attribute
of that platform. -/
structure Env where
  appDataDir : String
  scriptFolder : String
  tempLocation : String
  isWin : Bool
  listIniSigned : Bool
  exchangesList : List String
  listSettings : List (String × String)
  resources : List String
  uiDescriptionChecked : Bool
  julyTr : String → String → String
  sha1 : String → List Nat
  markerHeld : Path → Bool
  hiddenAttr : Path → Bool

/-- Order on character lists by code point, shorter first on a tie. -/
def charsLe : List Char → List Char → Bool
  | [], _ => true
  | _ :: _, [] => false
  | a :: as, b :: bs => decide (a < b) || (a == b && charsLe as bs)

/-- Order in which a directory lists its names: by code point. `QDir` sorts by
name too; the theorems below use only that the order is total. -/
def nameLe (a b : String) : Prop := charsLe a.data b.data = true

instance nameLe_decidable : DecidableRel nameLe := fun a b =>
  inferInstanceAs (Decidable (charsLe a.data b.data = true))

/-- Is the entry at the path hidden, and so left out of a directory listing made
with the default filter of `QDir`? Without `Q_OS_WIN` the entries whose name
starts with `.` are; with it, those that carry the hidden attribute. -/
def isHidden (env : Env) (p : Path) : Bool :=
  if env.isWin then env.hiddenAttr p
  else
    match p.getLast? with
    | some name => name.data.head? == some '.'
    | none => false

/-- The names of the entries (files and directories alike, hidden ones left
out) directly inside `dir` that match one of the name filters, as stored. -/
def entryNames (env : Env) (fs : FileSystem) (dir : String) (filters : List String) :
    List String :=
  fs.filterMap (fun e =>
    match e.1.getLast? with
    | some name =>
      if e.1.dropLast = toPath dir ∧ filters.any (fun f => wildcardMatch f name) = true ∧
          isHidden env e.1 = false
      then some name else none
    | none => none)

/-- The function `QDir(dir).entryList(filters)` with the default filter of `QDir`:
the matching names inside `dir` that are not hidden, each once, sorted by name. -/
def entryList (env : Env) (fs : FileSystem) (dir : String) (filters : List String) :
    List String :=
  List.insertionSort nameLe (entryNames env fs dir filters).dedup

/-- Is the string a single component of a path: non-empty and free of `/`? -/
def isComponent (c : String) : Bool := !c.data.isEmpty && !c.data.contains '/'

/-- Is the string usable as the name of an entry: a single component that is
neither `.` nor `..`? -/
def properName (c : String) : Bool :=
  isComponent c && !(c.data == ['.'] || c.data == ['.', '.'])

/-- The last character, case folded, of the last component of a path. -/
def lastLetter (q : Path) : Option Char := q.getLast?.bind (fun x => (lower x).getLast?)

/-- A file system is well formed when every stored path is made of single components. -/
def WellFormed (fs : FileSystem) : Prop := ∀ e ∈ fs, ∀ c ∈ e.1, isComponent c = true

instance WellFormed_decidable (fs : FileSystem) : Decidable (WellFormed fs) :=
  inferInstanceAs (Decidable (∀ e ∈ fs, ∀ c ∈ e.1, isComponent c = true))

/-- The call `QSettings(file, IniFormat).value(key)`: the value stored under a key, if any. -/
def iniValue (fs : FileSystem) (file key : String) : Option String :=
  match nodeAt fs (toPath file) with
  | some (Node.file kv) => kv.lookup key
  | _ => none

/-- The application settings store `QtBitcoinTrader.cfg`. -/
abbrev Settings := List (String × String)

/-- The call `settings.value(key, default).toString()`. -/
def Settings.value (s : Settings) (key dflt : String) : String := (s.lookup key).getD dflt

/-- The call `settings.setValue(key, v)`. -/
def Settings.setValue (s : Settings) (key v : String) : Settings :=
  (key, v) :: s.filter (fun e => decide (e.1 ≠ key))

/-- What the dialog works on: the file system and the application settings. -/
structure World where
  fs : FileSystem
  cfg : Settings
  deriving DecidableEq

/-! ## Widgets -/

/-- One entry of a combo box. An entry added without user data has none. -/
structure ComboItem where
  icon : String
  text : String
  userData : Option String
  deriving DecidableEq, Repr

/-- The state of a `QComboBox`. -/
structure QComboBox where
  items : List ComboItem
  currentIndex : Int
  deriving DecidableEq, Repr

/-- The function `QComboBox::count()`. -/
def QComboBox.count (c : QComboBox) : Int := (c.items.length : Int)

/-- The function `QComboBox::addItem`: appends; the first entry of an empty box becomes current. -/
def QComboBox.addItem (c : QComboBox) (icon text : String) (userData : Option String) :
    QComboBox :=
  { items := c.items ++ [{ icon := icon, text := text, userData := userData }]
    currentIndex := if c.items.isEmpty then 0 else c.currentIndex }

/-- The function `QComboBox::setCurrentIndex`: an index outside the box leaves no current entry. -/
def QComboBox.setCurrentIndex (c : QComboBox) (i : Int) : QComboBox :=
  { c with currentIndex := if 0 ≤ i ∧ i < c.count then i else -1 }

/-- The function `QComboBox::itemData(i)`. -/
def QComboBox.itemData (c : QComboBox) (i : Int) : Option String :=
  if i < 0 then none else c.items[i.toNat]?.bind (fun it => it.userData)

/-- The call `itemData(i).toString()`: empty for an entry without data. -/
def QComboBox.itemDataString (c : QComboBox) (i : Int) : String := (c.itemData i).getD ""

/-- The function `QComboBox::currentText()`. -/
def QComboBox.currentText (c : QComboBox) : String :=
  if c.currentIndex < 0 then ""
  else (c.items[c.currentIndex.toNat]?.map (fun it => it.text)).getD ""

/-- The user data of the entries, in order. -/
def QComboBox.dataList (c : QComboBox) : List (Option String) := c.items.map (fun it => it.userData)

/-- Result code of a closed dialog. -/
inductive DialogCode where
  | Rejected : DialogCode
  | Accepted : DialogCode
  deriving DecidableEq, Repr

/-- The members of `PasswordDialog` and the widget state it touches. -/
structure PasswordDialog where
  resetData : Bool
  newProfile : Bool
  btn_OK_enabled : Bool
  cbx_Profile : QComboBox
  edt_EditPasswd : String
  descriptionChecked : Bool
  descriptionVisible : Bool
  result : Option DialogCode
  deriving DecidableEq, Repr

/-- The function `QString::length()`: the number of UTF-16 code units. -/
def qlength (s : String) : Nat :=
  (s.data.map (fun c => if c.toNat > 65535 then 2 else 1)).sum

/-- The call `QVariant::toBool()` on a stored text: false for "false", "0" and the empty text. -/
def qvariantToBool (s : String) : Bool :=
  !(lower s == "false".data || s == "0" || s.data.isEmpty)

/-! ## The dialog -/

/-- The function `PasswordDialog::lockFilePath`. -/
def PasswordDialog.lockFilePath (env : Env) (name : String) : String :=
  env.tempLocation ++ "/QtBitcoinTrader_lock_" ++
    toHex (env.sha1 (env.appDataDir ++ "/" ++ fileName name))

/-- The call `QFile::remove(lockFileP)` under `Q_OS_WIN`: it fails, leaving the
marker where it is, when a running instance holds the marker open; a directory
at the marker path stays as well. -/
def removeMarker (env : Env) (fs : FileSystem) (lockFileP : String) : FileSystem :=
  if env.markerHeld (toPath lockFileP) then fs else qfileRemove fs lockFileP

/-- The function `PasswordDialog::isProfileLocked`: under `Q_OS_WIN` the removal of an
existing marker is attempted before the check, its result is not looked at.
Returns the answer and the file system left behind. -/
def PasswordDialog.isProfileLocked (env : Env) (fs : FileSystem) (name : String) :
    Bool × FileSystem :=
  let lockFileP := PasswordDialog.lockFilePath env name
  let fs1 :=
    if env.isWin then
      if qfileExists fs lockFileP then removeMarker env fs lockFileP else fs
    else fs
  (qfileExists fs1 lockFileP, fs1)

/-- The map from exchange identifier to logo built from the bundled list; a
later insertion for the same key wins. -/
def logosMap (env : Env) : List (Int × String) :=
  env.exchangesList.foldl (fun m g =>
    let currentLogo := (env.listSettings.lookup (g ++ "/Logo")).getD ""
    if currentLogo.data.isEmpty then m
    else (qstringToInt g, ":/Resources/Exchanges/Logos/" ++ currentLogo) :: m) []

/-- The call `QFile::exists` on a logo path: paths starting with `:` name bundled resources. -/
def logoExists (env : Env) (fs : FileSystem) (path : String) : Bool :=
  match path.data with
  | ':' :: _ => env.resources.contains path
  | _ => qfileExists fs path

/-- The variables of the loop over the settings files in the constructor. -/
structure Scan where
  fs : FileSystem
  cbx : QComboBox
  iniNames : List String
  lastProfileIndex : Int
  firstUnlockedProfileIndex : Int

/-- Is the signature field of a settings file present and non-empty? -/
def hasSignature (env : Env) (fs : FileSystem) (name : String) : Bool :=
  !((iniValue fs (env.appDataDir ++ "/" ++ name) "EncryptedData/ApiKeySign").getD "").data.isEmpty

/-- One pass of the loop body of the constructor, for the file `settingsList.at(n)`. -/
def scanStep (env : Env) (lastProfile : String) (scriptsOldPlace : List String)
    (n : Nat) (name : String) (st : Scan) : Scan :=
  let iniNames :=
    if !scriptsOldPlace.isEmpty then st.iniNames ++ [completeBaseName name] else st.iniNames
  let settIni := env.appDataDir ++ "/" ++ name
  if !hasSignature env st.fs name then
    { st with iniNames := iniNames, fs := qfileRemove st.fs settIni }
  else
    let exchangeId : Int :=
      match iniValue st.fs settIni "Profile/ExchangeId" with
      | some v => qvariantToInt v
      | none => -1
    let logo := ((logosMap env).lookup exchangeId).getD ""
    let currentLogo :=
      if !logoExists env st.fs logo then ":/Resources/Exchanges/Logos/Unknown.png" else logo
    let cbx := st.cbx.addItem currentLogo
      ((iniValue st.fs settIni "Profile/Name").getD (fileName name)) (some name)
    let locked := PasswordDialog.isProfileLocked env st.fs name
    let isProfLocked := locked.1
    let lastProfileIndex :=
      if !isProfLocked ∧ st.lastProfileIndex = -1 ∧ lastProfile = name
      then (n : Int) else st.lastProfileIndex
    let firstUnlockedProfileIndex :=
      if st.firstUnlockedProfileIndex = -1 ∧ !isProfLocked
      then (n : Int) - 1 else st.firstUnlockedProfileIndex
    { fs := locked.2, cbx := cbx, iniNames := iniNames
      lastProfileIndex := lastProfileIndex
      firstUnlockedProfileIndex := firstUnlockedProfileIndex }

/-- The loop `for (int n = 0; n < settingsList.size(); n++)` from position `n` on. -/
def scanSettings (env : Env) (lastProfile : String) (scriptsOldPlace : List String) :
    Nat → List String → Scan → Scan
  | _, [], st => st
  | n, name :: rest, st =>
    scanSettings env lastProfile scriptsOldPlace (n + 1) rest
      (scanStep env lastProfile scriptsOldPlace n name st)

/-- Body of the loop over `iniNames`: create the script folder of a profile and
copy every legacy script into it. -/
def copyScripts (env : Env) (scriptsOldPlace : List String) (fs : FileSystem)
    (scriptFolderName : String) : FileSystem :=
  scriptsOldPlace.foldl (fun f curScript =>
      qfileCopy f (env.scriptFolder ++ curScript)
        (env.scriptFolder ++ scriptFolderName ++ "/" ++ curScript))
    (qdirMkpath fs (env.scriptFolder ++ scriptFolderName))

/-- The block `if (!iniNames.empty())` of the constructor. -/
def migrateScripts (env : Env) (scriptsOldPlace iniNames : List String) (fs : FileSystem) :
    FileSystem :=
  if iniNames.isEmpty then fs
  else
    scriptsOldPlace.foldl (fun f curScript => qfileRemove f (env.scriptFolder ++ curScript))
      (iniNames.foldl (copyScripts env scriptsOldPlace) fs)

/-- Can the script folder of the profile stored in the settings file `name` be
created: the base name of the file is the name of an entry and no regular file
sits at the folder path or above it? -/
def ScriptFolderReady (env : Env) (fs : FileSystem) (name : String) : Prop :=
  properName (completeBaseName name) = true ∧
    ∀ q ∈ ancestorsAndSelf (toPath (env.scriptFolder ++ completeBaseName name)),
      isFileAt fs q = false

instance ScriptFolderReady_decidable (env : Env) (fs : FileSystem) (name : String) :
    Decidable (ScriptFolderReady env fs name) :=
  inferInstanceAs (Decidable (properName (completeBaseName name) = true ∧
    ∀ q ∈ ancestorsAndSelf (toPath (env.scriptFolder ++ completeBaseName name)),
      isFileAt fs q = false))

/-- The slot `PasswordDialog::on_descriptionGroupBox_toggled`. -/
def PasswordDialog.on_descriptionGroupBox_toggled (d : PasswordDialog) (w : World) :
    PasswordDialog × World :=
  ({ d with descriptionVisible := false },
   { w with cfg := w.cfg.setValue "HidePasswordDescription" "true" })

/-- The loop of the constructor run over the settings files of the application
data directory, with `scriptsOldPlace` and `settingsList` read beforehand. -/
def scanResult (env : Env) (w : World) : Scan :=
  let lastProfile := w.cfg.value "LastProfile" ""
  let scriptsOldPlace := entryList env w.fs env.scriptFolder ["*.JLR", "*.JLS"]
  let settingsList := entryList env w.fs env.appDataDir ["*.ini"]
  scanSettings env lastProfile scriptsOldPlace 0 settingsList
    { fs := w.fs, cbx := { items := [], currentIndex := -1 }, iniNames := []
      lastProfileIndex := -1, firstUnlockedProfileIndex := -1 }

/-- The end of the constructor for the profile list: the "Default Profile"
entry of an empty list and the choice of the current entry. -/
def selectDefault (env : Env) (st : Scan) : QComboBox :=
  let cbx1 :=
    if st.cbx.count = 0
    then st.cbx.addItem "" (env.julyTr "DEFAULT_PROFILE_NAME" "Default Profile") none
    else st.cbx
  let lastProfileIndex :=
    if st.firstUnlockedProfileIndex ≠ -1 ∧ st.lastProfileIndex = -1
    then st.firstUnlockedProfileIndex else st.lastProfileIndex
  if lastProfileIndex > -1 then cbx1.setCurrentIndex lastProfileIndex else cbx1

/-- The constructor `PasswordDialog::PasswordDialog`: `none` when the bundled
exchange list is not signed and the process exits. -/
def PasswordDialog.construct (env : Env) (w : World) : Option (PasswordDialog × World) :=
  if !env.listIniSigned then none
  else
    let scriptsOldPlace := entryList env w.fs env.scriptFolder ["*.JLR", "*.JLS"]
    let st := scanResult env w
    let fs1 := migrateScripts env scriptsOldPlace st.iniNames st.fs
    let d : PasswordDialog :=
      { resetData := false, newProfile := false, btn_OK_enabled := false
        cbx_Profile := selectDefault env st, edt_EditPasswd := ""
        descriptionChecked := env.uiDescriptionChecked, descriptionVisible := true
        result := none }
    let w1 : World := { fs := fs1, cfg := w.cfg }
    if qvariantToBool (w.cfg.value "HidePasswordDescription" "false") then
      if d.descriptionChecked then
        some (PasswordDialog.on_descriptionGroupBox_toggled { d with descriptionChecked := false } w1)
      else some (d, w1)
    else some (d, w1)

/-- The slot `PasswordDialog::accept`. -/
def PasswordDialog.accept (d : PasswordDialog) (w : World) : PasswordDialog × World :=
  let currIndex := d.cbx_Profile.currentIndex
  let cfg :=
    if currIndex ≥ 0
    then w.cfg.setValue "LastProfile" (d.cbx_Profile.itemDataString currIndex)
    else w.cfg
  ({ d with result := some DialogCode.Accepted }, { w with cfg := cfg })

/-- The function `PasswordDialog::getIniFilePath`. -/
def PasswordDialog.getIniFilePath (env : Env) (d : PasswordDialog) : String :=
  let currIndex := d.cbx_Profile.currentIndex
  if currIndex = -1 then env.appDataDir ++ "/QtBitcoinTrader.ini"
  else env.appDataDir ++ "/" ++ d.cbx_Profile.itemDataString currIndex

/-- The slot `PasswordDialog::addNewProfile`. -/
def PasswordDialog.addNewProfile (d : PasswordDialog) (w : World) : PasswordDialog × World :=
  PasswordDialog.accept { d with newProfile := true } w

/-- The function `PasswordDialog::getPassword`. -/
def PasswordDialog.getPassword (d : PasswordDialog) : String := d.edt_EditPasswd

/-- The folder `rmFolder` of `resetDataSlot`: the settings-file path up to its last `.`. -/
def rmFolderOf (iniToRemove : String) : String :=
  let indexPoint := lastIndexOf iniToRemove '.'
  if indexPoint > -1 then left iniToRemove indexPoint else ""

/-- The inner block of `resetDataSlot` for exchange identifier `0`: when the
companion folder exists, remove its `QtTrader.cfg` and its `*.ini` files. -/
def removeCompanionFiles (env : Env) (fs : FileSystem) (iniToRemove : String) : FileSystem :=
  let rmFolder := rmFolderOf iniToRemove
  if !rmFolder.data.isEmpty ∧ qfileExists fs rmFolder then
    let qtConfig := rmFolder ++ "/QtTrader.cfg"
    let fsA := if qfileExists fs qtConfig then qfileRemove fs qtConfig else fs
    let qtIniToRemove := entryList env fsA rmFolder ["*.ini"]
    qtIniToRemove.foldl (fun f qtIniFile => qfileRemove f (rmFolder ++ "/" ++ qtIniFile)) fsA
  else fs

/-- The block of `resetDataSlot` that runs for exchange identifier `0`: empty and
remove the companion folder. -/
def removeCompanion (env : Env) (fs : FileSystem) (iniToRemove : String) : FileSystem :=
  qdirRmdir (removeCompanionFiles env fs iniToRemove) (rmFolderOf iniToRemove)

/-- The end of `resetDataSlot`: empty and remove the script folder of the profile. -/
def removeScriptFolder (env : Env) (fs : FileSystem) (iniToRemove : String) : FileSystem :=
  let scriptFolder := env.scriptFolder ++ "/" ++ completeBaseName iniToRemove ++ "/"
  if qfileExists fs scriptFolder then
    qdirRmdir
      ((entryList env fs scriptFolder ["*.JLS", "*.JLR"]).foldl
        (fun f curFile => qfileRemove f (scriptFolder ++ curFile)) fs)
      scriptFolder
  else fs

/-- The stored exchange identifier as `resetDataSlot` reads it: `-1` when unset. -/
def exchangeIdOf (fs : FileSystem) (ini : String) : Int :=
  match iniValue fs ini "Profile/ExchangeId" with
  | some v => qvariantToInt v
  | none => -1

/-- The slot `PasswordDialog::resetDataSlot`; `yes` is the answer to the confirmation box. -/
def PasswordDialog.resetDataSlot (env : Env) (yes : Bool) (d : PasswordDialog) (w : World) :
    PasswordDialog × World :=
  if !yes then (d, w)
  else
    let d1 := { d with resetData := true }
    let iniToRemove := PasswordDialog.getIniFilePath env d1
    let fs1 :=
      if qfileExists w.fs iniToRemove then
        let fsA :=
          if exchangeIdOf w.fs iniToRemove = 0 then removeCompanion env w.fs iniToRemove else w.fs
        let fsB := qfileRemove fsA iniToRemove
        removeScriptFolder env fsB iniToRemove
      else w.fs
    PasswordDialog.accept d1 { w with fs := fs1 }

/-- The slot `PasswordDialog::checkToEnableButton`. -/
def PasswordDialog.checkToEnableButton (d : PasswordDialog) (pass : String) : PasswordDialog :=
  { d with btn_OK_enabled := decide (qlength pass ≠ 0) }

/-- The slot `PasswordDialog::showTimeMessage`: a message box, no state of the dialog changes. -/
def PasswordDialog.showTimeMessage (d : PasswordDialog) (_message : String) : PasswordDialog := d

/-- The member functions of the dialog other than `checkToEnableButton`. -/
inductive Operation where
  | accept : Operation
  | getIniFilePath : Operation
  | addNewProfile : Operation
  | getPassword : Operation
  | resetDataSlot (yes : Bool) : Operation
  | on_descriptionGroupBox_toggled (checked : Bool) : Operation
  | showTimeMessage (message : String) : Operation

/-- Effect of a member function on the dialog and the world. -/
def Operation.run (env : Env) : Operation → PasswordDialog × World → PasswordDialog × World
  | Operation.accept, s => PasswordDialog.accept s.1 s.2
  | Operation.getIniFilePath, s => s
  | Operation.addNewProfile, s => PasswordDialog.addNewProfile s.1 s.2
  | Operation.getPassword, s => s
  | Operation.resetDataSlot yes, s => PasswordDialog.resetDataSlot env yes s.1 s.2
  | Operation.on_descriptionGroupBox_toggled _, s =>
    PasswordDialog.on_descriptionGroupBox_toggled s.1 s.2
  | Operation.showTimeMessage m, s => (PasswordDialog.showTimeMessage s.1 m, s.2)

/-! ## Sample states -/

/-- A Linux installation: data in `/data`, scripts in `/data/Scripts/`, markers
in `/tmp`. The digest is stood in for by the bytes of the hashed text. -/
def linuxEnv : Env :=
  { appDataDir := "/data", scriptFolder := "/data/Scripts/", tempLocation := "/tmp"
    isWin := false, listIniSigned := true
    exchangesList := ["0", "1"]
    listSettings := [("0/Logo", "QtTrader.png"), ("1/Logo", "Exchange.png")]
    resources := [":/Resources/Exchanges/Logos/QtTrader.png",
      ":/Resources/Exchanges/Logos/Exchange.png", ":/Resources/Exchanges/Logos/Unknown.png"]
    uiDescriptionChecked := true
    julyTr := fun _ dflt => dflt
    sha1 := fun s => s.data.map Char.toNat
    markerHeld := fun _ => false
    hiddenAttr := fun _ => false }

/-- The same installation built with `Q_OS_WIN`. -/
def winEnv : Env := { linuxEnv with isWin := true }

/-- Content of a settings file holding a signature and a display name. -/
def signedProfile (displayName : String) : List (String × String) :=
  [("EncryptedData/ApiKeySign", "c2lnbmF0dXJl"), ("Profile/Name", displayName),
   ("Profile/ExchangeId", "1")]

/-- Three settings files: `a.ini` lacks the signature, `b.ini` and `c.ini` are
signed and unlocked; `b.ini` is the last used profile. -/
def shiftedWorld : World :=
  { fs := [(["data"], Node.dir), (["tmp"], Node.dir),
      (["data", "a.ini"], Node.file [("Profile/Name", "A")]),
      (["data", "b.ini"], Node.file (signedProfile "B")),
      (["data", "c.ini"], Node.file (signedProfile "C"))]
    cfg := [("LastProfile", "b.ini")] }

/-- Two signed profiles "A" and "B": `a.ini` is locked by its marker, `b.ini`
is not; the last used profile is `a.ini`. -/
def lockedFirstWorld : World :=
  { fs := [(["data"], Node.dir), (["tmp"], Node.dir),
      (["data", "a.ini"], Node.file (signedProfile "A")),
      (["data", "b.ini"], Node.file (signedProfile "B")),
      (toPath (PasswordDialog.lockFilePath linuxEnv "a.ini"), Node.file [])]
    cfg := [("LastProfile", "a.ini")] }

/-- A file system in which the marker path of `a.ini` is a directory. -/
def dirMarkerFs : FileSystem :=
  [(["data"], Node.dir), (["tmp"], Node.dir),
   (["data", "a.ini"], Node.file (signedProfile "A")),
   (toPath (PasswordDialog.lockFilePath winEnv "a.ini"), Node.dir)]

/-- The installation built with `Q_OS_WIN` while another instance of the program
runs the profile `a.ini` and holds its marker open. -/
def heldEnv : Env :=
  { winEnv with
    markerHeld := fun p => p == toPath (PasswordDialog.lockFilePath winEnv "a.ini") }

/-- A dialog showing two profiles with the second one chosen. -/
def twoProfilesDialog : PasswordDialog :=
  { resetData := false, newProfile := false, btn_OK_enabled := true
    cbx_Profile :=
      { items := [{ icon := "", text := "A", userData := some "a.ini" },
          { icon := "", text := "B", userData := some "b.ini" }]
        currentIndex := 1 }
    edt_EditPasswd := "secret", descriptionChecked := true, descriptionVisible := true
    result := none }

/-- The dialog the constructor builds over `shiftedWorld`. -/
def shiftedDialog : PasswordDialog :=
  { resetData := false, newProfile := false, btn_OK_enabled := false
    cbx_Profile :=
      { items := [
          { icon := ":/Resources/Exchanges/Logos/Exchange.png", text := "B", userData := some "b.ini" },
          { icon := ":/Resources/Exchanges/Logos/Exchange.png", text := "C", userData := some "c.ini" }]
        currentIndex := 1 }
    edt_EditPasswd := "", descriptionChecked := true, descriptionVisible := true
    result := none }

/-- The world the constructor leaves behind over `shiftedWorld`: `a.ini` is gone. -/
def shiftedAfter : World :=
  { fs := [(["data"], Node.dir), (["tmp"], Node.dir),
      (["data", "b.ini"], Node.file (signedProfile "B")),
      (["data", "c.ini"], Node.file (signedProfile "C"))]
    cfg := [("LastProfile", "b.ini")] }

/-- A directory named `x.ini` ahead of the signed and unlocked profiles `y.ini`
and `z.ini`; no profile has been used yet. -/
def dirEntryWorld : World :=
  { fs := [(["data"], Node.dir), (["tmp"], Node.dir),
      (["data", "x.ini"], Node.dir),
      (["data", "y.ini"], Node.file (signedProfile "Y")),
      (["data", "z.ini"], Node.file (signedProfile "Z"))]
    cfg := [] }

theorem splitSlash_ne_nil (l : List Char) : splitSlash l ≠ [] := by
  induction l with
  | nil => simp [splitSlash]
  | cons c cs ih =>
    unfold splitSlash
    split
    · simp
    · split <;> simp

theorem splitSlash_append_slash (a b : List Char) :
    splitSlash (a ++ '/' :: b) = splitSlash a ++ splitSlash b := by
  induction a with
  | nil => simp [splitSlash]
  | cons c cs ih =>
    by_cases hc : c = '/'
    · simp [splitSlash, hc, ih]
    · have h1 : splitSlash (c :: (cs ++ '/' :: b)) =
          (match splitSlash (cs ++ '/' :: b) with
            | [] => [[c]]
            | h :: t => (c :: h) :: t) := by
        rw [splitSlash]; simp [hc]
      have h2 : splitSlash (c :: cs) =
          (match splitSlash cs with
            | [] => [[c]]
            | h :: t => (c :: h) :: t) := by
        rw [splitSlash]; simp [hc]
      rw [List.cons_append, h1, h2, ih]
      cases hs : splitSlash cs with
      | nil => exact absurd hs (splitSlash_ne_nil cs)
      | cons h t => simp

theorem splitSlash_of_not_mem (w : List Char) (h : '/' ∉ w) : splitSlash w = [w] := by
  induction w with
  | nil => simp [splitSlash]
  | cons c cs ih =>
    have hc : c ≠ '/' := fun e => h (by simp [e])
    have hcs : '/' ∉ cs := fun e => h (by simp [e])
    rw [splitSlash]; simp [hc, ih hcs]

theorem not_slash_of_properName (name : String) (h : properName name = true) :
    '/' ∉ name.data ∧ name.data ≠ [] := by
  simp only [properName, isComponent, Bool.and_eq_true, Bool.not_eq_true', List.isEmpty_eq_false,
    List.contains_eq_any_beq, List.any_eq_false, beq_iff_eq] at h
  exact ⟨fun hm => h.1.2 _ hm rfl, fun e => by simp [e] at h⟩

theorem stepDots_of_properName (acc : Path) (s : String) (h : properName s = true) :
    stepDots acc s.data = acc ++ [s] := by
  simp only [properName, isComponent, Bool.and_eq_true, Bool.not_eq_true', List.isEmpty_eq_false,
    Bool.or_eq_false_iff, beq_eq_false_iff_ne, ne_eq] at h
  have h0 : s.data ≠ [] := fun e => by simp [e] at h
  simp [stepDots, h0, h.2.1, h.2.2]

theorem toPath_append_slash (a b : String) :
    toPath (a ++ "/" ++ b) = (splitSlash b.data).foldl stepDots (toPath a) := by
  unfold toPath
  have : (a ++ "/" ++ b).data = a.data ++ '/' :: b.data := by
    simp [String.data_append]
  rw [this, splitSlash_append_slash, List.foldl_append]

theorem toPath_name (s : String) (h : properName s = true) : toPath s = [s] := by
  unfold toPath
  rw [splitSlash_of_not_mem _ (not_slash_of_properName s h).1]
  simpa using stepDots_of_properName [] s h

/-- A proper name appended after a separator is one more component. -/
theorem toPath_child (dir name : String) (h : properName name = true) :
    toPath (dir ++ "/" ++ name) = toPath dir ++ [name] := by
  rw [toPath_append_slash, splitSlash_of_not_mem _ (not_slash_of_properName name h).1]
  simpa using stepDots_of_properName (toPath dir) name h

/-- A trailing separator does not change the path. -/
theorem toPath_trailing_slash (a : String) : toPath (a ++ "/") = toPath a := by
  have e : a ++ "/" = a ++ "/" ++ "" := by simp
  rw [e, toPath_append_slash]
  simp [splitSlash, stepDots]

theorem hexDigit_mem (n : Nat) (h : n < 16) : hexDigit n ∈ "0123456789abcdef".data := by
  have : ∀ k : Fin 16, hexDigit k.val ∈ "0123456789abcdef".data := by decide
  exact this ⟨n, h⟩

theorem toHex_chars (bytes : List Nat) : ∀ c ∈ (toHex bytes).data, c ∈ "0123456789abcdef".data := by
  intro c hc
  simp only [toHex, List.mem_flatMap] at hc
  obtain ⟨b, _, hb⟩ := hc
  simp only [List.mem_cons, List.mem_singleton, List.not_mem_nil, or_false] at hb
  rcases hb with rfl | rfl
  · exact hexDigit_mem _ (Nat.mod_lt _ (by decide))
  · exact hexDigit_mem _ (Nat.mod_lt _ (by decide))

/-- The last component of a lock marker path. -/
theorem lockName_data (bytes : List Nat) :
    ("QtBitcoinTrader_lock_" ++ toHex bytes).data = "QtBitcoinTrader_lock_".data ++ (toHex bytes).data := by
  simp [String.data_append]

theorem lockName_no_slash (bytes : List Nat) : '/' ∉ ("QtBitcoinTrader_lock_" ++ toHex bytes).data := by
  rw [lockName_data]
  intro h
  rcases List.mem_append.1 h with h | h
  · revert h; decide
  · have := toHex_chars bytes _ h
    revert this; decide

theorem lockName_properName (bytes : List Nat) :
    properName ("QtBitcoinTrader_lock_" ++ toHex bytes) = true := by
  have h1 := lockName_no_slash bytes
  have h2 := lockName_data bytes
  simp only [properName, isComponent, Bool.and_eq_true, Bool.not_eq_true', List.isEmpty_eq_false,
    List.contains_eq_any_beq, List.any_eq_false, beq_iff_eq, Bool.or_eq_false_iff,
    beq_eq_false_iff_ne, ne_eq]
  refine ⟨⟨?_, fun x hx e => h1 (e ▸ hx)⟩, ?_, ?_⟩ <;> rw [h2] <;> simp

theorem lockName_lastLower (bytes : List Nat) :
    ((lower ("QtBitcoinTrader_lock_" ++ toHex bytes)).getLast?) ≠ some 'i' := by
  unfold lower
  rw [lockName_data, List.getLast?_map, List.getLast?_append]
  cases hl : (toHex bytes).data.getLast? with
  | none => simp
  | some c =>
    have hm : c ∈ (toHex bytes).data := List.mem_of_getLast?_eq_some hl
    have h16 := toHex_chars bytes c hm
    have key : ∀ d ∈ "0123456789abcdef".data, Char.toLower d ≠ 'i' := by decide
    simpa [Option.or] using key c h16

theorem toPath_lockFilePath (env : Env) (name : String) :
    toPath (PasswordDialog.lockFilePath env name) =
      toPath env.tempLocation ++
        ["QtBitcoinTrader_lock_" ++ toHex (env.sha1 (env.appDataDir ++ "/" ++ fileName name))] := by
  unfold PasswordDialog.lockFilePath
  have e : env.tempLocation ++ "/QtBitcoinTrader_lock_" ++
      toHex (env.sha1 (env.appDataDir ++ "/" ++ fileName name)) =
      env.tempLocation ++ "/" ++ ("QtBitcoinTrader_lock_" ++
      toHex (env.sha1 (env.appDataDir ++ "/" ++ fileName name))) := by
    apply String.ext
    simp [String.data_append]
  rw [e, toPath_child _ _ (lockName_properName _)]

/-! ## File-system operations, entry by entry -/

theorem nodeAt_erasePath (fs : FileSystem) (p q : Path) :
    nodeAt (erasePath fs p) q = if q = p then none else nodeAt fs q := by
  induction fs with
  | nil => simp [erasePath, nodeAt]
  | cons e rest ih =>
    obtain ⟨r, n⟩ := e
    unfold erasePath at ih ⊢
    by_cases hr : r = p
    · subst hr
      simp only [List.filter, ne_eq, not_true_eq_false, decide_False]
      rw [ih]
      by_cases hq : q = r
      · simp [hq, nodeAt]
      · have : ¬ r = q := fun e => hq e.symm
        simp [hq, nodeAt, this]
    · simp only [List.filter, ne_eq, hr, not_false_eq_true, decide_True, nodeAt]
      by_cases hq : r = q
      · have : ¬ q = p := fun e => hr (hq.trans e)
        simp [hq, this]
      · simp only [hq, if_false]
        exact ih

theorem nodeAt_append (fs gs : FileSystem) (q : Path) :
    nodeAt (fs ++ gs) q = (nodeAt fs q).orElse (fun _ => nodeAt gs q) := by
  induction fs with
  | nil => simp [nodeAt]
  | cons e rest ih =>
    obtain ⟨r, n⟩ := e
    by_cases hq : r = q
    · simp [nodeAt, hq]
    · simp [nodeAt, hq, ih]

theorem nodeAt_isSome_iff (fs : FileSystem) (q : Path) :
    (nodeAt fs q).isSome = true ↔ ∃ n, (q, n) ∈ fs := by
  induction fs with
  | nil => simp [nodeAt]
  | cons e rest ih =>
    obtain ⟨r, n⟩ := e
    by_cases hq : r = q
    · subst hq
      simp [nodeAt]
    · simp only [nodeAt, hq, if_false, ih, List.mem_cons, Prod.mk.injEq]
      constructor
      · rintro ⟨m, hm⟩; exact ⟨m, Or.inr hm⟩
      · rintro ⟨m, hm | hm⟩
        · exact absurd hm.1.symm hq
        · exact ⟨m, hm⟩

theorem nodeAt_qfileRemove (fs : FileSystem) (s : String) (q : Path) :
    nodeAt (qfileRemove fs s) q =
      if q = toPath s ∧ isFileAt fs (toPath s) = true then none else nodeAt fs q := by
  unfold qfileRemove
  by_cases h : isFileAt fs (toPath s) = true
  · simp [h, nodeAt_erasePath]
  · simp [h]

theorem isFileAt_qfileRemove_self (fs : FileSystem) (s : String) :
    isFileAt (qfileRemove fs s) (toPath s) = false := by
  by_cases h : isFileAt fs (toPath s) = true
  · unfold isFileAt
    rw [nodeAt_qfileRemove]
    simp [h]
  · have h2 : qfileRemove fs s = fs := by simp [qfileRemove, h]
    rw [h2]; simpa using h

/-- Removing a file never changes what is stored elsewhere, and never adds anything. -/
theorem nodeAt_qfileRemove_cases (fs : FileSystem) (s : String) (q : Path) :
    nodeAt (qfileRemove fs s) q = nodeAt fs q ∨
      (nodeAt (qfileRemove fs s) q = none ∧ isFileAt fs q = true ∧ q = toPath s) := by
  rw [nodeAt_qfileRemove]
  by_cases h : q = toPath s ∧ isFileAt fs (toPath s) = true
  · right; simp [h]
  · left; simp [h]

theorem nodeAt_qfileCopy (fs : FileSystem) (src dst : String) (q : Path) :
    nodeAt (qfileCopy fs src dst) q = nodeAt fs q ∨
      (nodeAt fs q = none ∧ q = toPath dst ∧
        nodeAt (qfileCopy fs src dst) q = nodeAt fs (toPath src) ∧
        isFileAt fs (toPath src) = true) := by
  unfold qfileCopy
  cases hs : nodeAt fs (toPath src) with
  | none => simp
  | some n =>
    cases n with
    | dir => simp
    | file c =>
      simp only
      split
      · rename_i hc
        by_cases hq : q = toPath dst
        · right
          simp only [Bool.and_eq_true, Option.isNone_iff_eq_none] at hc
          subst hq
          refine ⟨hc.1.1, rfl, ?_, by simp [isFileAt, hs]⟩
          simp [nodeAt_append, hc.1.1, nodeAt]
        · left
          have : ¬ toPath dst = q := fun e => hq e.symm
          rw [nodeAt_append]
          cases nodeAt fs q <;> simp [nodeAt, this]
      · simp

theorem nodeAt_map_dir (l : List Path) (q : Path) :
    nodeAt (l.map (fun r => (r, Node.dir))) q = if q ∈ l then some Node.dir else none := by
  induction l with
  | nil => simp [nodeAt]
  | cons r rest ih =>
    by_cases hq : r = q
    · simp [nodeAt, hq]
    · have : ¬ q = r := fun e => hq e.symm
      simp [nodeAt, hq, ih, this]

theorem nodeAt_qdirMkpath (fs : FileSystem) (s : String) (q : Path) :
    nodeAt (qdirMkpath fs s) q = nodeAt fs q ∨
      (nodeAt fs q = none ∧ q ∈ ancestorsAndSelf (toPath s) ∧
        nodeAt (qdirMkpath fs s) q = some Node.dir) := by
  unfold qdirMkpath
  split
  · left; rfl
  · rw [nodeAt_append, nodeAt_map_dir]
    cases hq : nodeAt fs q with
    | some n => left; simp
    | none =>
      by_cases hm : q ∈ ancestorsAndSelf (toPath s)
      · right; simp [hm, hq]
      · left; simp [hm, hq]

theorem charsLe_total (a b : List Char) : charsLe a b = true ∨ charsLe b a = true := by
  induction a generalizing b with
  | nil => left; simp [charsLe]
  | cons x xs ih =>
    cases b with
    | nil => right; simp [charsLe]
    | cons y ys =>
      simp only [charsLe, Bool.or_eq_true, decide_eq_true_eq, Bool.and_eq_true, beq_iff_eq]
      rcases lt_trichotomy x y with h | h | h
      · left; left; exact h
      · subst h
        rcases ih ys with h2 | h2
        · left; right; exact ⟨rfl, h2⟩
        · right; right; exact ⟨rfl, h2⟩
      · right; left; exact h

theorem charsLe_trans (a b c : List Char) (h1 : charsLe a b = true) (h2 : charsLe b c = true) :
    charsLe a c = true := by
  induction a generalizing b c with
  | nil => simp [charsLe]
  | cons x xs ih =>
    cases b with
    | nil => simp [charsLe] at h1
    | cons y ys =>
      cases c with
      | nil => simp [charsLe] at h2
      | cons z zs =>
        simp only [charsLe, Bool.or_eq_true, decide_eq_true_eq, Bool.and_eq_true,
          beq_iff_eq] at h1 h2 ⊢
        rcases h1 with h1 | ⟨rfl, h1⟩
        · rcases h2 with h2 | ⟨rfl, _⟩
          · left; exact lt_trans h1 h2
          · left; exact h1
        · rcases h2 with h2 | ⟨rfl, h2⟩
          · left; exact h2
          · right; exact ⟨rfl, ih ys zs h1 h2⟩

theorem nameLe_isTotal : IsTotal String nameLe := ⟨fun a b => charsLe_total a.data b.data⟩

theorem nameLe_isTrans : IsTrans String nameLe :=
  ⟨fun a b c => charsLe_trans a.data b.data c.data⟩

theorem mem_entryNames {env : Env} (fs : FileSystem) (dir : String) (filters : List String)
    (name : String) :
    name ∈ entryNames env fs dir filters ↔
      (nodeAt fs (toPath dir ++ [name])).isSome = true ∧
        filters.any (fun f => wildcardMatch f name) = true ∧
          isHidden env (toPath dir ++ [name]) = false := by
  unfold entryNames
  rw [List.mem_filterMap, nodeAt_isSome_iff]
  constructor
  · rintro ⟨⟨p, n⟩, hmem, hf⟩
    cases hl : p.getLast? with
    | none => simp [hl] at hf
    | some x =>
      simp only [hl] at hf
      split at hf
      · rename_i hc
        simp only [Option.some.injEq] at hf
        subst hf
        have hp : p = toPath dir ++ [x] := by
          rw [← hc.1]
          rcases List.eq_nil_or_concat p with h0 | ⟨l, c, hlc⟩
          · simp [h0] at hl
          · subst hlc
            simp at hl
            simp [hl]
        exact ⟨⟨n, hp ▸ hmem⟩, hc.2.1, hp ▸ hc.2.2⟩
      · simp at hf
  · rintro ⟨⟨n, hmem⟩, hm, hh⟩
    refine ⟨(toPath dir ++ [name], n), hmem, ?_⟩
    simp [hm, hh]

theorem mem_entryList {env : Env} (fs : FileSystem) (dir : String) (filters : List String)
    (name : String) :
    name ∈ entryList env fs dir filters ↔
      (nodeAt fs (toPath dir ++ [name])).isSome = true ∧
        filters.any (fun f => wildcardMatch f name) = true ∧
          isHidden env (toPath dir ++ [name]) = false := by
  unfold entryList
  rw [List.mem_insertionSort, List.mem_dedup, mem_entryNames]

theorem entryList_nodup {env : Env} (fs : FileSystem) (dir : String) (filters : List String) :
    (entryList env fs dir filters).Nodup :=
  (List.perm_insertionSort nameLe _).nodup_iff.2 (List.nodup_dedup _)

theorem entryList_sorted {env : Env} (fs : FileSystem) (dir : String) (filters : List String) :
    (entryList env fs dir filters).Sorted nameLe := by
  haveI := nameLe_isTotal
  haveI := nameLe_isTrans
  exact List.sorted_insertionSort nameLe _

/-- A name that matches a filter made of `*` and an ending of three characters
or more is longer than `..`. -/
theorem long_of_match (f name : String) (hf : f.data.head? = some '*' ∧ 4 ≤ f.data.length)
    (h : wildcardMatch f name = true) : 3 ≤ name.data.length := by
  unfold wildcardMatch at h
  cases hd : f.data with
  | nil => simp [hd] at hf
  | cons c ending =>
    simp only [hd, List.head?_cons, Option.some.injEq, List.length_cons] at hf
    obtain ⟨rfl, hlen⟩ := hf
    simp only [hd, List.isSuffixOf_iff_suffix] at h
    have := h.length_le
    simp only [lower, List.length_map] at this
    omega

theorem properName_of_long (name : String) (hc : isComponent name = true)
    (hl : 3 ≤ name.data.length) : properName name = true := by
  simp only [properName, hc, Bool.true_and, Bool.not_eq_true', Bool.or_eq_false_iff,
    beq_eq_false_iff_ne, ne_eq]
  constructor <;> intro e <;> rw [e] at hl <;> simp at hl

/-- The names a well-formed file system lists under the filters of the dialog
are names of entries. -/
theorem mem_entryList_properName {env : Env} (fs : FileSystem) (hwf : WellFormed fs)
    (dir : String) (filters : List String)
    (hf : ∀ f ∈ filters, f.data.head? = some '*' ∧ 4 ≤ f.data.length) (name : String)
    (h : name ∈ entryList env fs dir filters) :
    properName name = true := by
  rw [mem_entryList, nodeAt_isSome_iff] at h
  obtain ⟨⟨n, hn⟩, hm, _⟩ := h
  rw [List.any_eq_true] at hm
  obtain ⟨f, hfm, hmatch⟩ := hm
  exact properName_of_long name (hwf _ hn name (by simp))
    (long_of_match f name (hf f hfm) hmatch)

/-! ## Names and their endings -/

theorem lastLower_of_match (ending : List Char) (c : Char) (name : String)
    (he : (ending.map Char.toLower).getLast? = some c)
    (h : wildcardMatch ⟨'*' :: ending⟩ name = true) : (lower name).getLast? = some c := by
  simp only [wildcardMatch, List.isSuffixOf_iff_suffix] at h
  obtain ⟨t, ht⟩ := h
  rw [← ht, List.getLast?_append, he]
  rfl

theorem lastLower_ini (name : String) (h : wildcardMatch "*.ini" name = true) :
    (lower name).getLast? = some 'i' :=
  lastLower_of_match ".ini".data 'i' name (by decide) h

theorem lastLower_script (name : String)
    (h : ["*.JLR", "*.JLS"].any (fun f => wildcardMatch f name) = true) :
    (lower name).getLast? = some 'r' ∨ (lower name).getLast? = some 's' := by
  simp only [List.any_cons, List.any_nil, Bool.or_false, Bool.or_eq_true] at h
  rcases h with h | h
  · left; exact lastLower_of_match ".JLR".data 'r' name (by decide) h
  · right; exact lastLower_of_match ".JLS".data 's' name (by decide) h

/-- Path of a settings file of the application data directory. -/
theorem settingsPath_eq (env : Env) (name : String) (h : properName name = true) :
    toPath (env.appDataDir ++ "/" ++ name) = toPath env.appDataDir ++ [name] :=
  toPath_child _ _ h

theorem settingsPath_inj (env : Env) (a b : String) (ha : properName a = true)
    (hb : properName b = true)
    (h : toPath (env.appDataDir ++ "/" ++ a) = toPath (env.appDataDir ++ "/" ++ b)) : a = b := by
  rw [settingsPath_eq env a ha, settingsPath_eq env b hb] at h
  simpa using h

/-- A lock marker never sits at the path of a settings file. -/
theorem lockPath_ne_settingsPath (env : Env) (a b : String) (hb : properName b = true)
    (hm : wildcardMatch "*.ini" b = true) :
    toPath (PasswordDialog.lockFilePath env a) ≠ toPath (env.appDataDir ++ "/" ++ b) := by
  rw [toPath_lockFilePath, settingsPath_eq env b hb]
  intro h
  have h2 := congrArg List.getLast? h
  simp only [List.getLast?_append, List.getLast?_singleton, Option.or, Option.some.injEq]
    at h2
  have h3 := lastLower_ini b hm
  rw [← h2] at h3
  exact lockName_lastLower _ h3

/-! ## The lock check -/

theorem lockFilePath_data_ne (env : Env) (name : String) :
    (PasswordDialog.lockFilePath env name).data ≠ [] := by
  simp [PasswordDialog.lockFilePath, String.data_append]

theorem toPath_lockFilePath_ne (env : Env) (name : String) :
    toPath (PasswordDialog.lockFilePath env name) ≠ [] := by
  rw [toPath_lockFilePath]; simp

theorem qfileExists_lock (env : Env) (fs : FileSystem) (name : String) :
    qfileExists fs (PasswordDialog.lockFilePath env name) =
      (nodeAt fs (toPath (PasswordDialog.lockFilePath env name))).isSome := by
  unfold qfileExists
  have h1 := lockFilePath_data_ne env name
  have h2 := toPath_lockFilePath_ne env name
  cases hd : (PasswordDialog.lockFilePath env name).data with
  | nil => exact absurd hd h1
  | cons c cs =>
    cases hp : toPath (PasswordDialog.lockFilePath env name) with
    | nil => exact absurd hp h2
    | cons x xs => simp

theorem nodeAt_removeMarker_cases (env : Env) (fs : FileSystem) (s : String) (q : Path) :
    nodeAt (removeMarker env fs s) q = nodeAt fs q ∨
      (nodeAt (removeMarker env fs s) q = none ∧ isFileAt fs q = true ∧ q = toPath s ∧
        env.markerHeld q = false) := by
  unfold removeMarker
  split
  · left; rfl
  · rename_i hh
    rcases nodeAt_qfileRemove_cases fs s q with h | h
    · left; exact h
    · right; exact ⟨h.1, h.2.1, h.2.2, by rw [h.2.2]; simpa using hh⟩

/-- What the lock check answers, in terms of the entry stored at the marker path:
under `Q_OS_WIN`, whether a marker is there that the removal does not take away. -/
theorem isProfileLocked_fst (env : Env) (fs : FileSystem) (name : String) :
    (PasswordDialog.isProfileLocked env fs name).1 =
      if env.isWin = true
      then (nodeAt fs (toPath (PasswordDialog.lockFilePath env name))).isSome &&
        (env.markerHeld (toPath (PasswordDialog.lockFilePath env name)) ||
          !isFileAt fs (toPath (PasswordDialog.lockFilePath env name)))
      else (nodeAt fs (toPath (PasswordDialog.lockFilePath env name))).isSome := by
  unfold PasswordDialog.isProfileLocked
  simp only [qfileExists_lock]
  by_cases hw : env.isWin = true
  · simp only [hw, if_true]
    cases hn : nodeAt fs (toPath (PasswordDialog.lockFilePath env name)) with
    | none => simp [hn]
    | some n =>
      by_cases hh : env.markerHeld (toPath (PasswordDialog.lockFilePath env name)) = true
      · simp [removeMarker, hh, hn]
      · cases n with
        | dir =>
          have : isFileAt fs (toPath (PasswordDialog.lockFilePath env name)) = false := by
            simp [isFileAt, hn]
          simp [removeMarker, hh, qfileRemove, this, hn]
        | file c =>
          have : isFileAt fs (toPath (PasswordDialog.lockFilePath env name)) = true := by
            simp [isFileAt, hn]
          simp [removeMarker, hh, nodeAt_qfileRemove, this]
  · simp [hw]

/-- What the lock check does to the file system. -/
theorem isProfileLocked_snd (env : Env) (fs : FileSystem) (name : String) (q : Path) :
    nodeAt (PasswordDialog.isProfileLocked env fs name).2 q = nodeAt fs q ∨
      (nodeAt (PasswordDialog.isProfileLocked env fs name).2 q = none ∧ isFileAt fs q = true ∧
        q = toPath (PasswordDialog.lockFilePath env name) ∧ env.isWin = true ∧
        env.markerHeld q = false) := by
  unfold PasswordDialog.isProfileLocked
  by_cases hw : env.isWin = true
  · simp only [hw, if_true]
    split
    · rcases nodeAt_removeMarker_cases env fs (PasswordDialog.lockFilePath env name) q with h | h
      · left; exact h
      · right; exact ⟨h.1, h.2.1, h.2.2.1, trivial, h.2.2.2⟩
    · left; rfl
  · left; simp [hw]

/-! ## The loop over the settings files -/

theorem scanStep_fs (env : Env) (lastProfile : String) (scripts : List String) (n : Nat)
    (name : String) (st : Scan) (q : Path) :
    nodeAt (scanStep env lastProfile scripts n name st).fs q = nodeAt st.fs q ∨
      (nodeAt (scanStep env lastProfile scripts n name st).fs q = none ∧
        isFileAt st.fs q = true ∧
        ((q = toPath (env.appDataDir ++ "/" ++ name) ∧ hasSignature env st.fs name = false) ∨
         (q = toPath (PasswordDialog.lockFilePath env name) ∧ env.isWin = true ∧
           hasSignature env st.fs name = true ∧ env.markerHeld q = false))) := by
  unfold scanStep
  by_cases hs : hasSignature env st.fs name = true
  · simp only [hs, Bool.not_true, Bool.false_eq_true, if_false]
    rcases isProfileLocked_snd env st.fs name q with h | h
    · left; exact h
    · right; exact ⟨h.1, h.2.1, Or.inr ⟨h.2.2.1, h.2.2.2.1, trivial, h.2.2.2.2⟩⟩
  · have hs' : hasSignature env st.fs name = false := by simpa using hs
    simp only [hs', Bool.not_false, if_true]
    rcases nodeAt_qfileRemove_cases st.fs (env.appDataDir ++ "/" ++ name) q with h | h
    · left; exact h
    · right; exact ⟨h.1, h.2.1, Or.inl ⟨h.2.2, trivial⟩⟩

/-- The loop only ever removes regular files: settings files and, under `Q_OS_WIN`, markers. -/
theorem scanSettings_fs (env : Env) (lastProfile : String) (scripts : List String)
    (names : List String) (n : Nat) (st : Scan) (q : Path) :
    nodeAt (scanSettings env lastProfile scripts n names st).fs q = nodeAt st.fs q ∨
      (nodeAt (scanSettings env lastProfile scripts n names st).fs q = none ∧
        isFileAt st.fs q = true ∧
        ∃ name ∈ names, q = toPath (env.appDataDir ++ "/" ++ name) ∨
          (q = toPath (PasswordDialog.lockFilePath env name) ∧ env.isWin = true)) := by
  induction names generalizing n st with
  | nil => left; rfl
  | cons name rest ih =>
    simp only [scanSettings]
    rcases ih (n + 1) (scanStep env lastProfile scripts n name st) with h | ⟨h1, h2, x, hx, h3⟩
    · rcases scanStep_fs env lastProfile scripts n name st q with g | ⟨g1, g2, g3⟩
      · left; rw [h, g]
      · right
        refine ⟨by rw [h, g1], g2, name, by simp, ?_⟩
        rcases g3 with g3 | g3
        · exact Or.inl g3.1
        · exact Or.inr ⟨g3.1, g3.2.1⟩
    · right
      have hf : isFileAt st.fs q = true := by
        rcases scanStep_fs env lastProfile scripts n name st q with g | ⟨g1, _, _⟩
        · simpa [isFileAt, g] using h2
        · simp [isFileAt, g1] at h2
      exact ⟨h1, hf, x, by simp [hx], h3⟩

theorem isFileAt_of_scanSettings (env : Env) (lastProfile : String) (scripts : List String)
    (names : List String) (n : Nat) (st : Scan) (q : Path)
    (h : isFileAt (scanSettings env lastProfile scripts n names st).fs q = true) :
    isFileAt st.fs q = true := by
  rcases scanSettings_fs env lastProfile scripts names n st q with g | ⟨g1, _, _⟩
  · simpa [isFileAt, g] using h
  · simp [isFileAt, g1] at h

theorem dataList_addItem (c : QComboBox) (icon text : String) (d : Option String) :
    (c.addItem icon text d).dataList = c.dataList ++ [d] := by
  simp [QComboBox.addItem, QComboBox.dataList]

theorem hasSignature_congr (env : Env) (fs1 fs2 : FileSystem) (name : String)
    (h : nodeAt fs1 (toPath (env.appDataDir ++ "/" ++ name)) =
      nodeAt fs2 (toPath (env.appDataDir ++ "/" ++ name))) :
    hasSignature env fs1 name = hasSignature env fs2 name := by
  simp [hasSignature, iniValue, h]

theorem scanStep_dataList (env : Env) (lastProfile : String) (scripts : List String) (n : Nat)
    (name : String) (st : Scan) :
    (scanStep env lastProfile scripts n name st).cbx.dataList =
      st.cbx.dataList ++ (if hasSignature env st.fs name = true then [some name] else []) := by
  unfold scanStep
  by_cases hs : hasSignature env st.fs name = true
  · simp [hs, dataList_addItem]
  · simp [hs]

theorem scanStep_other (env : Env) (lastProfile : String) (scripts : List String) (n : Nat)
    (name other : String) (st : Scan) (hne : other ≠ name)
    (hn : properName name = true) (ho : properName other = true)
    (hm : wildcardMatch "*.ini" other = true) :
    nodeAt (scanStep env lastProfile scripts n name st).fs
        (toPath (env.appDataDir ++ "/" ++ other)) =
      nodeAt st.fs (toPath (env.appDataDir ++ "/" ++ other)) := by
  rcases scanStep_fs env lastProfile scripts n name st
    (toPath (env.appDataDir ++ "/" ++ other)) with h | ⟨_, _, h | h⟩
  · exact h
  · exact absurd (settingsPath_inj env other name ho hn h.1) hne
  · exact absurd h.1.symm (lockPath_ne_settingsPath env name other ho hm)

theorem scanStep_signed (env : Env) (lastProfile : String) (scripts : List String) (n : Nat)
    (name : String) (st : Scan) (hn : properName name = true)
    (hm : wildcardMatch "*.ini" name = true) (hs : hasSignature env st.fs name = true) :
    nodeAt (scanStep env lastProfile scripts n name st).fs
        (toPath (env.appDataDir ++ "/" ++ name)) =
      nodeAt st.fs (toPath (env.appDataDir ++ "/" ++ name)) := by
  rcases scanStep_fs env lastProfile scripts n name st
    (toPath (env.appDataDir ++ "/" ++ name)) with h | ⟨_, _, h | h⟩
  · exact h
  · rw [hs] at h; exact absurd h.2 (by simp)
  · exact absurd h.1.symm (lockPath_ne_settingsPath env name name hn hm)

theorem scanStep_unsigned (env : Env) (lastProfile : String) (scripts : List String) (n : Nat)
    (name : String) (st : Scan) (hs : hasSignature env st.fs name = false) :
    isFileAt (scanStep env lastProfile scripts n name st).fs
      (toPath (env.appDataDir ++ "/" ++ name)) = false := by
  unfold scanStep
  simp only [hs, Bool.not_false, if_true]
  exact isFileAt_qfileRemove_self _ _

/-- The loop lists exactly the signed files, keeps them and removes the others. -/
theorem scanSettings_spec (env : Env) (lastProfile : String) (scripts : List String)
    (names : List String) (hnd : names.Nodup)
    (hp : ∀ name ∈ names, properName name = true ∧ wildcardMatch "*.ini" name = true)
    (n : Nat) (st : Scan) :
    (scanSettings env lastProfile scripts n names st).cbx.dataList =
        st.cbx.dataList ++ (names.filter (hasSignature env st.fs)).map some ∧
      (∀ name ∈ names, hasSignature env st.fs name = true →
        nodeAt (scanSettings env lastProfile scripts n names st).fs
            (toPath (env.appDataDir ++ "/" ++ name)) =
          nodeAt st.fs (toPath (env.appDataDir ++ "/" ++ name))) ∧
      (∀ name ∈ names, hasSignature env st.fs name = false →
        isFileAt (scanSettings env lastProfile scripts n names st).fs
          (toPath (env.appDataDir ++ "/" ++ name)) = false) := by
  induction names generalizing n st with
  | nil => simp [scanSettings]
  | cons name rest ih =>
    have hnd' : rest.Nodup := (List.nodup_cons.1 hnd).2
    have hnot : name ∉ rest := (List.nodup_cons.1 hnd).1
    have hp' : ∀ x ∈ rest, properName x = true ∧ wildcardMatch "*.ini" x = true :=
      fun x hx => hp x (by simp [hx])
    have hpn := hp name (by simp)
    obtain ⟨ih1, ih2, ih3⟩ := ih hnd' hp' (n + 1) (scanStep env lastProfile scripts n name st)
    have hsame : ∀ x ∈ rest,
        hasSignature env (scanStep env lastProfile scripts n name st).fs x =
          hasSignature env st.fs x := by
      intro x hx
      apply hasSignature_congr
      exact scanStep_other env lastProfile scripts n name x st
        (fun e => hnot (e ▸ hx)) hpn.1 (hp' x hx).1 (hp' x hx).2
    have hfilter : rest.filter (hasSignature env (scanStep env lastProfile scripts n name st).fs)
        = rest.filter (hasSignature env st.fs) :=
      List.filter_congr hsame
    simp only [scanSettings]
    refine ⟨?_, ?_, ?_⟩
    · rw [ih1, scanStep_dataList, hfilter]
      by_cases hs : hasSignature env st.fs name = true
      · simp [hs, List.filter_cons]
      · simp [hs, List.filter_cons]
    · intro x hx hs
      rcases List.mem_cons.1 hx with rfl | hx
      · rcases scanSettings_fs env lastProfile scripts rest (n + 1)
          (scanStep env lastProfile scripts n x st)
          (toPath (env.appDataDir ++ "/" ++ x)) with h | ⟨_, _, y, hy, h | h⟩
        · rw [h]; exact scanStep_signed env lastProfile scripts n x st hpn.1 hpn.2 hs
        · have := settingsPath_inj env x y hpn.1 (hp' y hy).1 h
          exact absurd (this ▸ hy) hnot
        · exact absurd h.1.symm (lockPath_ne_settingsPath env y x hpn.1 hpn.2)
      · rw [ih2 x hx (by rw [hsame x hx]; exact hs)]
        exact scanStep_other env lastProfile scripts n name x st
          (fun e => hnot (e ▸ hx)) hpn.1 (hp' x hx).1 (hp' x hx).2
    · intro x hx hs
      rcases List.mem_cons.1 hx with rfl | hx
      · have h0 := scanStep_unsigned env lastProfile scripts n x st hs
        cases hf : isFileAt (scanSettings env lastProfile scripts (n + 1) rest
            (scanStep env lastProfile scripts n x st)).fs
            (toPath (env.appDataDir ++ "/" ++ x)) with
        | false => rfl
        | true =>
          have := isFileAt_of_scanSettings env lastProfile scripts rest (n + 1) _ _ hf
          rw [h0] at this; exact absurd this (by simp)
      · exact ih3 x hx (by rw [hsame x hx]; exact hs)

/-! ## Last letters of paths -/

theorem splitSlash_append_word (a w : List Char) (hw : '/' ∉ w) :
    ∃ pre l, splitSlash a = pre ++ [l] ∧ splitSlash (a ++ w) = pre ++ [l ++ w] := by
  induction a with
  | nil => exact ⟨[], [], by simp [splitSlash], by simp [splitSlash_of_not_mem w hw]⟩
  | cons c cs ih =>
    obtain ⟨pre, l, h1, h2⟩ := ih
    by_cases hc : c = '/'
    · refine ⟨[] :: pre, l, ?_, ?_⟩
      · simp [splitSlash, hc, h1]
      · simp [splitSlash, hc, h2]
    · cases pre with
      | nil =>
        refine ⟨[], c :: l, ?_, ?_⟩
        · rw [splitSlash]; simp [hc, h1]
        · rw [List.cons_append, splitSlash]; simp [hc, h2]
      | cons h t =>
        refine ⟨(c :: h) :: t, l, ?_, ?_⟩
        · rw [splitSlash]; simp [hc, h1]
        · rw [List.cons_append, splitSlash]; simp [hc, h2]

theorem lastLetter_append_name (a b : String) (hb : properName b = true) :
    lastLetter (toPath (a ++ b)) = (lower b).getLast? := by
  obtain ⟨hw, hb0⟩ := not_slash_of_properName b hb
  simp only [properName, isComponent, Bool.and_eq_true, Bool.not_eq_true', List.isEmpty_eq_false,
    Bool.or_eq_false_iff, beq_eq_false_iff_ne, ne_eq] at hb
  obtain ⟨pre, l, _, h2⟩ := splitSlash_append_word a.data b.data hw
  have hne : l ++ b.data ≠ [] := by simp [hb0]
  have hd1 : l ++ b.data ≠ ['.'] := by
    intro e
    cases l with
    | nil => exact hb.2.1 (by simpa using e)
    | cons x xs =>
      simp only [List.cons_append, List.cons.injEq, List.append_eq_nil] at e
      exact hb0 e.2.2
  have hd2 : l ++ b.data ≠ ['.', '.'] := by
    intro e
    cases l with
    | nil => exact hb.2.2 (by simpa using e)
    | cons x xs =>
      cases xs with
      | nil =>
        simp only [List.cons_append, List.nil_append, List.cons.injEq] at e
        exact hb.2.1 e.2
      | cons y ys =>
        simp only [List.cons_append, List.cons.injEq, List.append_eq_nil] at e
        exact hb0 e.2.2.2
  have hb2 : b.data.getLast? ≠ none := by
    cases hbd : b.data with
    | nil => exact absurd hbd hb0
    | cons x xs => simp
  unfold lastLetter toPath lower
  rw [String.data_append, h2, List.foldl_append]
  simp only [List.foldl_cons, List.foldl_nil, stepDots, hne, hd1, hd2, or_self, if_false,
    List.getLast?_append, List.getLast?_singleton, Option.or, Option.bind,
    List.map_append, List.getLast?_map]
  cases hbl : b.data.getLast? with
  | none => exact absurd hbl hb2
  | some x => simp

theorem lastLetter_child (p : Path) (name : String) :
    lastLetter (p ++ [name]) = (lower name).getLast? := by
  simp [lastLetter]

theorem lastLetter_settingsPath (env : Env) (name : String) (hn : properName name = true)
    (hm : wildcardMatch "*.ini" name = true) :
    lastLetter (toPath (env.appDataDir ++ "/" ++ name)) = some 'i' := by
  rw [settingsPath_eq env name hn, lastLetter_child, lastLower_ini name hm]

theorem foldl_rel {α β : Type} (R : β → β → Prop) (hrefl : ∀ b, R b b)
    (htrans : ∀ a b c, R a b → R b c → R a c) (step : β → α → β) (l : List α)
    (h : ∀ b, ∀ x ∈ l, R b (step b x)) (b : β) : R b (l.foldl step b) := by
  induction l generalizing b with
  | nil => exact hrefl b
  | cons x xs ih =>
    simp only [List.foldl_cons]
    exact htrans _ _ _ (h b x (by simp)) (ih (fun b y hy => h b y (by simp [hy])) _)

theorem keptOrDir_refl (q : Path) (a : FileSystem) :
    nodeAt a q = nodeAt a q ∨ (nodeAt a q = none ∧ nodeAt a q = some Node.dir) := Or.inl rfl

theorem keptOrDir_trans (q : Path) (a b c : FileSystem)
    (h1 : nodeAt b q = nodeAt a q ∨ (nodeAt a q = none ∧ nodeAt b q = some Node.dir))
    (h2 : nodeAt c q = nodeAt b q ∨ (nodeAt b q = none ∧ nodeAt c q = some Node.dir)) :
    nodeAt c q = nodeAt a q ∨ (nodeAt a q = none ∧ nodeAt c q = some Node.dir) := by
  rcases h1 with h1 | ⟨h1, h1'⟩
  · rcases h2 with h2 | ⟨h2, h2'⟩
    · left; rw [h2, h1]
    · right; exact ⟨by rw [← h1]; exact h2, h2'⟩
  · rcases h2 with h2 | ⟨h2, _⟩
    · right; exact ⟨h1, by rw [h2]; exact h1'⟩
    · rw [h1'] at h2; exact absurd h2 (by simp)

theorem scriptLetter_ne_i (s : String)
    (hm : ["*.JLR", "*.JLS"].any (fun f => wildcardMatch f s) = true) :
    (lower s).getLast? ≠ some 'i' := by
  rcases lastLower_script s hm with h | h <;> rw [h] <;> decide

/-- The migration neither removes nor creates a file at a path ending like a settings file. -/
theorem migrateScripts_settings (env : Env) (scripts iniNames : List String) (fs : FileSystem)
    (hs : ∀ s ∈ scripts, properName s = true ∧
      ["*.JLR", "*.JLS"].any (fun f => wildcardMatch f s) = true)
    (q : Path) (hq : lastLetter q = some 'i') :
    nodeAt (migrateScripts env scripts iniNames fs) q = nodeAt fs q ∨
      (nodeAt fs q = none ∧ nodeAt (migrateScripts env scripts iniNames fs) q = some Node.dir) := by
  unfold migrateScripts
  split
  · left; rfl
  · apply keptOrDir_trans q _ (iniNames.foldl (copyScripts env scripts) fs)
    · apply foldl_rel (fun a b => nodeAt b q = nodeAt a q ∨
        (nodeAt a q = none ∧ nodeAt b q = some Node.dir)) (keptOrDir_refl q)
        (keptOrDir_trans q)
      intro b folder _
      unfold copyScripts
      apply keptOrDir_trans q _ (qdirMkpath b (env.scriptFolder ++ folder))
      · rcases nodeAt_qdirMkpath b (env.scriptFolder ++ folder) q with h | h
        · left; exact h
        · right; exact ⟨h.1, h.2.2⟩
      · apply foldl_rel (fun a b => nodeAt b q = nodeAt a q ∨
          (nodeAt a q = none ∧ nodeAt b q = some Node.dir)) (keptOrDir_refl q)
          (keptOrDir_trans q)
        intro f cur hcur
        rcases nodeAt_qfileCopy f (env.scriptFolder ++ cur)
          (env.scriptFolder ++ folder ++ "/" ++ cur) q with h | h
        · left; exact h
        · exfalso
          have hl := lastLetter_append_name (env.scriptFolder ++ folder ++ "/") cur
            (hs cur hcur).1
          rw [← h.2.1, hq] at hl
          exact scriptLetter_ne_i cur (hs cur hcur).2 hl.symm
    · apply foldl_rel (fun a b => nodeAt b q = nodeAt a q ∨
        (nodeAt a q = none ∧ nodeAt b q = some Node.dir)) (keptOrDir_refl q)
        (keptOrDir_trans q)
      intro f cur hcur
      rcases nodeAt_qfileRemove_cases f (env.scriptFolder ++ cur) q with h | h
      · left; exact h
      · exfalso
        have hl := lastLetter_append_name env.scriptFolder cur (hs cur hcur).1
        rw [← h.2.2, hq] at hl
        exact scriptLetter_ne_i cur (hs cur hcur).2 hl.symm

theorem entryList_scripts_ok (env : Env) (fs : FileSystem) (hwf : WellFormed fs) (dir : String) :
    ∀ s ∈ entryList env fs dir ["*.JLR", "*.JLS"], properName s = true ∧
      ["*.JLR", "*.JLS"].any (fun f => wildcardMatch f s) = true := by
  intro s hs
  exact ⟨mem_entryList_properName fs hwf dir _ (by decide) s hs,
    ((mem_entryList _ _ _ _).1 hs).2.1⟩

theorem entryList_settings_ok (env : Env) (fs : FileSystem) (hwf : WellFormed fs) (dir : String) :
    ∀ s ∈ entryList env fs dir ["*.ini"], properName s = true ∧ wildcardMatch "*.ini" s = true := by
  intro s hs
  refine ⟨mem_entryList_properName fs hwf dir _ (by decide) s hs, ?_⟩
  have := ((mem_entryList _ _ _ _).1 hs).2.1
  simpa using this

/-! ## The settings store -/

theorem lookup_filter_ne (s : Settings) (key k : String) (h : k ≠ key) :
    (s.filter (fun e => decide (e.1 ≠ key))).lookup k = s.lookup k := by
  induction s with
  | nil => rfl
  | cons e rest ih =>
    obtain ⟨a, b⟩ := e
    by_cases ha : a = key
    · subst ha
      have : (k == a) = false := by simpa using h
      simp only [List.filter, ne_eq, not_true_eq_false, decide_False, List.lookup, this]
      exact ih
    · by_cases hk : k = a
      · subst hk
        simp [List.filter, ha, List.lookup]
      · have : (k == a) = false := by simpa using hk
        simp only [List.filter, ne_eq, ha, not_false_eq_true, decide_True, List.lookup, this]
        exact ih

theorem value_setValue_same (s : Settings) (key v dflt : String) :
    (s.setValue key v).value key dflt = v := by
  simp [Settings.setValue, Settings.value, List.lookup]

theorem value_setValue_ne (s : Settings) (key k v dflt : String) (h : k ≠ key) :
    (s.setValue key v).value k dflt = s.value k dflt := by
  have : (k == key) = false := by simpa using h
  simp only [Settings.setValue, Settings.value, List.lookup, this]
  rw [lookup_filter_ne s key k h]

/-! ## The constructor -/

/-- With a signed exchange list the constructor returns; its profile list and
file system are those of the loop, the migration and the default choice. -/
theorem construct_some (env : Env) (w : World) (h : env.listIniSigned = true) :
    ∃ d w', PasswordDialog.construct env w = some (d, w') ∧
      d.cbx_Profile = selectDefault env (scanResult env w) ∧
      w'.fs = migrateScripts env (entryList env w.fs env.scriptFolder ["*.JLR", "*.JLS"])
        (scanResult env w).iniNames (scanResult env w).fs ∧
      d.btn_OK_enabled = false ∧ d.edt_EditPasswd = "" ∧ d.result = none ∧
      w'.cfg.value "LastProfile" "" = w.cfg.value "LastProfile" "" := by
  unfold PasswordDialog.construct
  simp only [h, Bool.not_true, Bool.false_eq_true, if_false]
  split
  · split
    · refine ⟨_, _, rfl, rfl, rfl, rfl, rfl, rfl, ?_⟩
      exact value_setValue_ne _ _ _ _ _ (by decide)
    · exact ⟨_, _, rfl, rfl, rfl, rfl, rfl, rfl, rfl⟩
  · exact ⟨_, _, rfl, rfl, rfl, rfl, rfl, rfl, rfl⟩

theorem items_ite_setCurrentIndex (c : Prop) [Decidable c] (x : QComboBox) (i : Int) :
    (if c then x.setCurrentIndex i else x).items = x.items := by
  split <;> rfl

theorem selectDefault_items (env : Env) (st : Scan) :
    (selectDefault env st).items =
      if st.cbx.items = [] then
        [{ icon := "", text := env.julyTr "DEFAULT_PROFILE_NAME" "Default Profile",
           userData := none }]
      else st.cbx.items := by
  unfold selectDefault
  by_cases h : st.cbx.items = []
  · have hc : st.cbx.count = 0 := by simp [QComboBox.count, h]
    simp only [hc, if_true, h, items_ite_setCurrentIndex]
    simp [QComboBox.addItem, h]
  · have hc : ¬ st.cbx.count = 0 := by
      simp only [QComboBox.count]
      intro h0
      exact h (List.length_eq_zero.1 (by exact_mod_cast h0))
    simp only [hc, if_false, h, items_ite_setCurrentIndex]

theorem scanResult_spec (env : Env) (w : World) (hwf : WellFormed w.fs) :
    (scanResult env w).cbx.dataList =
        ((entryList env w.fs env.appDataDir ["*.ini"]).filter (hasSignature env w.fs)).map some ∧
      (∀ name ∈ entryList env w.fs env.appDataDir ["*.ini"], hasSignature env w.fs name = true →
        nodeAt (scanResult env w).fs (toPath (env.appDataDir ++ "/" ++ name)) =
          nodeAt w.fs (toPath (env.appDataDir ++ "/" ++ name))) ∧
      (∀ name ∈ entryList env w.fs env.appDataDir ["*.ini"], hasSignature env w.fs name = false →
        isFileAt (scanResult env w).fs (toPath (env.appDataDir ++ "/" ++ name)) = false) := by
  have := scanSettings_spec env (w.cfg.value "LastProfile" "")
    (entryList env w.fs env.scriptFolder ["*.JLR", "*.JLS"])
    (entryList env w.fs env.appDataDir ["*.ini"]) (entryList_nodup _ _ _)
    (entryList_settings_ok env w.fs hwf env.appDataDir) 0
    { fs := w.fs, cbx := { items := [], currentIndex := -1 }, iniNames := []
      lastProfileIndex := -1, firstUnlockedProfileIndex := -1 }
  simpa [scanResult, QComboBox.dataList] using this

theorem isFileAt_of_hasSignature (env : Env) (fs : FileSystem) (name : String)
    (h : hasSignature env fs name = true) :
    isFileAt fs (toPath (env.appDataDir ++ "/" ++ name)) = true := by
  unfold hasSignature iniValue at h
  unfold isFileAt
  cases hn : nodeAt fs (toPath (env.appDataDir ++ "/" ++ name)) with
  | none => simp [hn] at h
  | some n =>
    cases n with
    | dir => simp [hn] at h
    | file c => rfl

/-- C4: the profile list holds the "Default Profile" entry, an entry without a
settings file as its data, exactly when no settings file with a signature was
found; that entry is then the only one, and the list is never empty. -/
theorem constructor_default_profile_entry (env : Env) (w : World)
    (hsig : env.listIniSigned = true) (hwf : WellFormed w.fs) :
    ∃ d w', PasswordDialog.construct env w = some (d, w') ∧
      ((∃ it ∈ d.cbx_Profile.items, it.userData = none) ↔
        ∀ name ∈ entryList env w.fs env.appDataDir ["*.ini"], hasSignature env w.fs name = false) ∧
      (∀ it ∈ d.cbx_Profile.items, it.userData = none →
        d.cbx_Profile.items = [it] ∧
          it.text = env.julyTr "DEFAULT_PROFILE_NAME" "Default Profile") ∧
      d.cbx_Profile.items ≠ [] := by
  obtain ⟨d, w', hc, hbox, -⟩ := construct_some env w hsig
  obtain ⟨h1, -, -⟩ := scanResult_spec env w hwf
  have hitems := selectDefault_items env (scanResult env w)
  rw [← hbox] at hitems
  have hsome : ∀ it ∈ (scanResult env w).cbx.items, it.userData ≠ none := by
    intro it hit hnone
    have : it.userData ∈ (scanResult env w).cbx.dataList := List.mem_map_of_mem _ hit
    rw [h1, hnone] at this
    simp at this
  have hiff : (scanResult env w).cbx.items = [] ↔
      ∀ name ∈ entryList env w.fs env.appDataDir ["*.ini"], hasSignature env w.fs name = false := by
    have e : (scanResult env w).cbx.items = [] ↔ (scanResult env w).cbx.dataList = [] := by
      simp [QComboBox.dataList]
    rw [e, h1]
    simp [List.filter_eq_nil_iff]
  refine ⟨d, w', hc, ?_, ?_, ?_⟩
  · rw [← hiff, hitems]
    constructor
    · rintro ⟨it, hit, hnone⟩
      by_contra hne
      rw [if_neg hne] at hit
      exact hsome it hit hnone
    · intro he
      rw [if_pos he]
      exact ⟨_, List.mem_singleton.2 rfl, rfl⟩
  · intro it hit hnone
    rw [hitems] at hit ⊢
    by_cases he : (scanResult env w).cbx.items = []
    · rw [if_pos he] at hit ⊢
      rw [List.mem_singleton] at hit
      subst hit
      exact ⟨rfl, rfl⟩
    · rw [if_neg he] at hit
      exact absurd hnone (hsome it hit)
  · rw [hitems]
    split
    · simp
    · assumption

/-! ## Default selection -/

/-- C1, at a failing input: `a.ini` has no signature, `b.ini` and `c.ini` are
signed and unlocked and `b.ini` is the last used profile; the constructor uses
the position of `b.ini` among the settings files, 1, as its position in the
profile list and so selects `c.ini`. -/
theorem lastProfile_index_counts_removed_files :
    hasSignature linuxEnv shiftedWorld.fs "b.ini" = true ∧
      (PasswordDialog.isProfileLocked linuxEnv shiftedWorld.fs "b.ini").1 = false ∧
      shiftedWorld.cfg.value "LastProfile" "" = "b.ini" ∧
      (PasswordDialog.construct linuxEnv shiftedWorld).map
          (fun r => (r.1.cbx_Profile.dataList, r.1.cbx_Profile.currentIndex,
            r.1.cbx_Profile.itemData r.1.cbx_Profile.currentIndex)) =
        some ([some "b.ini", some "c.ini"], 1, some "c.ini") := by
  decide

/-- C2, at the input the claim names: profiles "A" (locked) and "B" (unlocked)
with last used profile "A"; the constructor records the first unlocked position
as `n - 1` and so selects "A". -/
theorem firstUnlocked_index_off_by_one :
    (PasswordDialog.isProfileLocked linuxEnv lockedFirstWorld.fs "a.ini").1 = true ∧
      (PasswordDialog.isProfileLocked linuxEnv lockedFirstWorld.fs "b.ini").1 = false ∧
      (scanResult linuxEnv lockedFirstWorld).firstUnlockedProfileIndex = 0 ∧
      (PasswordDialog.construct linuxEnv lockedFirstWorld).map
          (fun r => (r.1.cbx_Profile.dataList, r.1.cbx_Profile.currentIndex,
            r.1.cbx_Profile.currentText)) =
        some ([some "a.ini", some "b.ini"], 0, "A") := by
  decide

/-! ## The lock marker -/

/-- C5 as amended: without `Q_OS_WIN` the answer is whether the marker path
exists; with `Q_OS_WIN` the removal of an existing marker is attempted first and
the answer is whether the path exists afterwards, which is true exactly when the
path existed and the removal did not take it away, the marker being held open by
a running instance or the path being a directory; the marker path depends only
on the temp location, the application data directory, the hash and the
file-name part of the name. -/
theorem isProfileLocked_answer (env : Env) (fs : FileSystem) (name : String) :
    (env.isWin = false → (PasswordDialog.isProfileLocked env fs name).1 =
        qfileExists fs (PasswordDialog.lockFilePath env name)) ∧
      (env.isWin = true →
        (PasswordDialog.isProfileLocked env fs name).1 =
            qfileExists (PasswordDialog.isProfileLocked env fs name).2
              (PasswordDialog.lockFilePath env name) ∧
          ((PasswordDialog.isProfileLocked env fs name).1 = true ↔
            qfileExists fs (PasswordDialog.lockFilePath env name) = true ∧
              (env.markerHeld (toPath (PasswordDialog.lockFilePath env name)) = true ∨
                isFileAt fs (toPath (PasswordDialog.lockFilePath env name)) = false))) ∧
      (∀ (env2 : Env) (name2 : String), env2.tempLocation = env.tempLocation →
        env2.appDataDir = env.appDataDir → env2.sha1 = env.sha1 →
        fileName name2 = fileName name →
        PasswordDialog.lockFilePath env2 name2 = PasswordDialog.lockFilePath env name) := by
  refine ⟨?_, ?_, ?_⟩
  · intro hw
    rw [isProfileLocked_fst, qfileExists_lock]
    simp [hw]
  · intro hw
    refine ⟨rfl, ?_⟩
    rw [isProfileLocked_fst, qfileExists_lock]
    simp [hw]
  · intro env2 name2 h1 h2 h3 h4
    simp [PasswordDialog.lockFilePath, h1, h2, h3, h4]

theorem isProfileLocked_answer_witness :
    (PasswordDialog.isProfileLocked linuxEnv lockedFirstWorld.fs "a.ini").1 = true ∧
      (PasswordDialog.isProfileLocked winEnv lockedFirstWorld.fs "a.ini").1 = false :=
  ⟨((isProfileLocked_answer linuxEnv lockedFirstWorld.fs "a.ini").1 rfl).trans (by decide),
    by
      have h := ((isProfileLocked_answer winEnv lockedFirstWorld.fs "a.ini").2.1 rfl).2
      cases hv : (PasswordDialog.isProfileLocked winEnv lockedFirstWorld.fs "a.ini").1 with
      | false => rfl
      | true => exact absurd (h.1 hv).2 (by decide)⟩

/-- C5 refuted as stated: under `Q_OS_WIN` the profile is reported locked when
its marker file is held open by a running instance, and also when a directory
sits at the marker path; a marker file that nobody holds is removed and the
profile reported unlocked. -/
theorem isProfileLocked_win_not_always_false :
    heldEnv.isWin = true ∧
      isFileAt lockedFirstWorld.fs (toPath (PasswordDialog.lockFilePath heldEnv "a.ini")) = true ∧
      (PasswordDialog.isProfileLocked heldEnv lockedFirstWorld.fs "a.ini").1 = true ∧
      (PasswordDialog.isProfileLocked winEnv dirMarkerFs "a.ini").1 = true ∧
      (PasswordDialog.isProfileLocked winEnv lockedFirstWorld.fs "a.ini").1 = false := by
  decide

/-! ## Confirmation -/

/-- C7: with an entry chosen, `accept` stores the item data of that entry as
`LastProfile` and closes the dialog as accepted; `addNewProfile` does the same,
sets `newProfile` and leaves `resetData` as it was. -/
theorem accept_stores_chosen_profile (d : PasswordDialog) (w : World)
    (h : 0 ≤ d.cbx_Profile.currentIndex) :
    (PasswordDialog.accept d w).2.cfg.value "LastProfile" "" =
        d.cbx_Profile.itemDataString d.cbx_Profile.currentIndex ∧
      (PasswordDialog.accept d w).1.result = some DialogCode.Accepted ∧
      (PasswordDialog.addNewProfile d w).2.cfg.value "LastProfile" "" =
        d.cbx_Profile.itemDataString d.cbx_Profile.currentIndex ∧
      (PasswordDialog.addNewProfile d w).1.result = some DialogCode.Accepted ∧
      (PasswordDialog.addNewProfile d w).1.newProfile = true ∧
      (PasswordDialog.addNewProfile d w).1.resetData = d.resetData := by
  have hge : d.cbx_Profile.currentIndex ≥ 0 := h
  simp [PasswordDialog.accept, PasswordDialog.addNewProfile, hge, value_setValue_same]

theorem accept_stores_chosen_profile_witness :
    (PasswordDialog.accept twoProfilesDialog shiftedWorld).2.cfg.value "LastProfile" "" =
      "b.ini" ∧
    (PasswordDialog.addNewProfile twoProfilesDialog shiftedWorld).1.newProfile = true :=
  have h := accept_stores_chosen_profile twoProfilesDialog shiftedWorld (by decide)
  ⟨h.1.trans (by decide), h.2.2.2.2.1⟩

theorem qlength_pos_iff (pass : String) : 0 < qlength pass ↔ pass ≠ "" := by
  unfold qlength
  cases hd : pass.data with
  | nil =>
    have : pass = "" := String.ext hd
    simp [this]
  | cons c cs =>
    have : pass ≠ "" := by
      intro e; rw [e] at hd; simp at hd
    simp only [List.map_cons, List.sum_cons, ne_eq, this, not_false_eq_true, iff_true]
    split <;> omega

/-- C9: the button is disabled after construction, when the password is empty;
`checkToEnableButton(pass)` enables it exactly when `pass` has a length above
zero, that is when `pass` is not empty; no other member function of the dialog
changes it. -/
theorem confirmation_button_follows_password (env : Env) (w : World)
    (hsig : env.listIniSigned = true) :
    (∃ d w', PasswordDialog.construct env w = some (d, w') ∧
        d.btn_OK_enabled = false ∧ d.edt_EditPasswd = "") ∧
      (∀ (d : PasswordDialog) (pass : String),
        ((PasswordDialog.checkToEnableButton d pass).btn_OK_enabled = true ↔ 0 < qlength pass) ∧
          (0 < qlength pass ↔ pass ≠ "")) ∧
      (∀ (op : Operation) (s : PasswordDialog × World),
        (op.run env s).1.btn_OK_enabled = s.1.btn_OK_enabled) := by
  refine ⟨?_, ?_, ?_⟩
  · obtain ⟨d, w', hc, _, _, hb, he, _⟩ := construct_some env w hsig
    exact ⟨d, w', hc, hb, he⟩
  · intro d pass
    refine ⟨?_, qlength_pos_iff pass⟩
    simp [PasswordDialog.checkToEnableButton, Nat.pos_iff_ne_zero]
  · intro op s
    cases op with
    | accept => rfl
    | getIniFilePath => rfl
    | addNewProfile => rfl
    | getPassword => rfl
    | resetDataSlot yes =>
      cases yes <;> rfl
    | on_descriptionGroupBox_toggled c => rfl
    | showTimeMessage m => rfl

theorem confirmation_button_follows_password_witness :
    (∃ d w', PasswordDialog.construct linuxEnv shiftedWorld = some (d, w') ∧
        d.btn_OK_enabled = false ∧ d.edt_EditPasswd = "") ∧
      (PasswordDialog.checkToEnableButton twoProfilesDialog "").btn_OK_enabled = false :=
  have h := confirmation_button_follows_password linuxEnv shiftedWorld rfl
  ⟨h.1, by decide⟩

/-! ## The last used profile -/

theorem scanStep_lastProfileIndex_sticky (env : Env) (lastProfile : String)
    (scripts : List String) (n : Nat) (name : String) (st : Scan)
    (h : st.lastProfileIndex ≠ -1) :
    (scanStep env lastProfile scripts n name st).lastProfileIndex = st.lastProfileIndex := by
  unfold scanStep
  by_cases hs : hasSignature env st.fs name = true
  · simp [hs, h]
  · simp [hs]

theorem scanSettings_lastProfileIndex_sticky (env : Env) (lastProfile : String)
    (scripts : List String) (names : List String) (n : Nat) (st : Scan)
    (h : st.lastProfileIndex ≠ -1) :
    (scanSettings env lastProfile scripts n names st).lastProfileIndex = st.lastProfileIndex := by
  induction names generalizing n st with
  | nil => rfl
  | cons x rest ih =>
    simp only [scanSettings]
    rw [ih, scanStep_lastProfileIndex_sticky _ _ _ _ _ _ h]
    rw [scanStep_lastProfileIndex_sticky _ _ _ _ _ _ h]
    exact h

/-- A pass of the loop does not change whether a profile is locked. -/
theorem scanStep_locked (env : Env) (lastProfile : String) (scripts : List String) (n : Nat)
    (name target : String) (st : Scan) (hn : properName name = true)
    (hm : wildcardMatch "*.ini" name = true) :
    (PasswordDialog.isProfileLocked env (scanStep env lastProfile scripts n name st).fs target).1 =
      (PasswordDialog.isProfileLocked env st.fs target).1 := by
  rw [isProfileLocked_fst, isProfileLocked_fst]
  rcases scanStep_fs env lastProfile scripts n name st
    (toPath (PasswordDialog.lockFilePath env target)) with h | ⟨h1, h2, h3 | h3⟩
  · simp only [isFileAt, h]
  · exact absurd h3.1 (lockPath_ne_settingsPath env target name hn hm)
  · rw [h1]
    have hw : env.isWin = true := h3.2.1
    simp only [hw, if_true]
    unfold isFileAt at h2
    cases hnd : nodeAt st.fs (toPath (PasswordDialog.lockFilePath env target)) with
    | none => rfl
    | some nd =>
      cases nd with
      | dir => simp [hnd] at h2
      | file c => simp [h3.2.2.2, isFileAt, hnd]

theorem scanStep_lastProfileIndex_hit (env : Env) (target : String) (scripts : List String)
    (n : Nat) (st : Scan) (hs : hasSignature env st.fs target = true)
    (hu : (PasswordDialog.isProfileLocked env st.fs target).1 = false)
    (h : st.lastProfileIndex = -1) :
    (scanStep env target scripts n target st).lastProfileIndex = (n : Int) := by
  unfold scanStep
  simp [hs, hu, h]

theorem scanStep_lastProfileIndex_miss (env : Env) (lastProfile : String)
    (scripts : List String) (n : Nat) (name : String) (st : Scan) (hne : lastProfile ≠ name)
    (h : st.lastProfileIndex = -1) :
    (scanStep env lastProfile scripts n name st).lastProfileIndex = -1 := by
  unfold scanStep
  by_cases hs : hasSignature env st.fs name = true
  · simp [hs, hne, h]
  · simp [hs, h]

/-- Over signed files only, the loop sets `lastProfileIndex` to the position of
the last used profile, provided that profile is unlocked. -/
theorem scanSettings_lastProfileIndex (env : Env) (target : String) (scripts : List String)
    (names : List String) (hnd : names.Nodup)
    (hp : ∀ name ∈ names, properName name = true ∧ wildcardMatch "*.ini" name = true)
    (n : Nat) (st : Scan)
    (hall : ∀ name ∈ names, hasSignature env st.fs name = true)
    (hmem : target ∈ names)
    (hu : (PasswordDialog.isProfileLocked env st.fs target).1 = false)
    (hinit : st.lastProfileIndex = -1) :
    ∃ k, names[k]? = some target ∧
      (scanSettings env target scripts n names st).lastProfileIndex = ((n + k : Nat) : Int) := by
  induction names generalizing n st with
  | nil => simp at hmem
  | cons x rest ih =>
    have hnot : x ∉ rest := (List.nodup_cons.1 hnd).1
    have hpx := hp x (by simp)
    simp only [scanSettings]
    by_cases hx : x = target
    · subst hx
      refine ⟨0, by simp, ?_⟩
      have h1 := scanStep_lastProfileIndex_hit env x scripts n st (hall x (by simp)) hu hinit
      rw [scanSettings_lastProfileIndex_sticky, h1]
      · simp
      · rw [h1]; omega
    · have hmem' : target ∈ rest := by
        rcases List.mem_cons.1 hmem with h | h
        · exact absurd h.symm hx
        · exact h
      have hall' : ∀ name ∈ rest,
          hasSignature env (scanStep env target scripts n x st).fs name = true := by
        intro y hy
        rw [hasSignature_congr env _ st.fs y (scanStep_other env target scripts n x y st
          (fun e => hnot (e ▸ hy)) hpx.1 (hp y (by simp [hy])).1 (hp y (by simp [hy])).2)]
        exact hall y (by simp [hy])
      obtain ⟨k, hk1, hk2⟩ := ih (List.nodup_cons.1 hnd).2 (fun y hy => hp y (by simp [hy]))
        (n + 1) (scanStep env target scripts n x st) hall' hmem'
        (by rw [scanStep_locked env target scripts n x target st hpx.1 hpx.2]; exact hu)
        (scanStep_lastProfileIndex_miss env target scripts n x st (fun e => hx e.symm) hinit)
      refine ⟨k + 1, by simpa using hk1, ?_⟩
      rw [hk2]
      push_cast
      omega

theorem listIniSigned_of_construct (env : Env) (w : World) (r : PasswordDialog × World)
    (h : PasswordDialog.construct env w = some r) : env.listIniSigned = true := by
  cases hs : env.listIniSigned with
  | true => rfl
  | false => simp [PasswordDialog.construct, hs] at h

theorem itemData_of_dataList (c : QComboBox) (k : Nat) (name : String)
    (h : c.dataList[k]? = some (some name)) : c.itemData (k : Int) = some name := by
  unfold QComboBox.dataList at h
  rw [List.getElem?_map] at h
  unfold QComboBox.itemData
  have hk : ¬ ((k : Int) < 0) := by omega
  simp only [hk, if_false, Int.toNat_ofNat]
  cases hg : c.items[k]? with
  | none => simp [hg] at h
  | some it =>
    simp only [hg, Option.map_some', Option.some.injEq] at h
    simp [h]

theorem dataList_of_itemData (c : QComboBox) (i : Int) (name : String)
    (h : c.itemData i = some name) :
    some name ∈ c.dataList ∧ 0 ≤ i ∧ i < c.count ∧ c.itemDataString i = name := by
  have h0 := h
  unfold QComboBox.itemData at h
  by_cases hi : i < 0
  · simp [hi] at h
  · simp only [hi, if_false] at h
    cases hg : c.items[i.toNat]? with
    | none => simp [hg] at h
    | some it =>
      simp only [hg, Option.some_bind] at h
      have hlt : i.toNat < c.items.length := by
        rw [List.getElem?_eq_some_iff] at hg
        exact hg.1
      have hm : it ∈ c.items := List.getElem?_mem hg
      refine ⟨?_, by omega, ?_, by simp [QComboBox.itemDataString, h0]⟩
      · rw [← h]
        exact List.mem_map_of_mem _ hm
      · simp only [QComboBox.count]
        omega

theorem selectDefault_hit (env : Env) (st : Scan) (k : Nat)
    (h : st.lastProfileIndex = (k : Int)) (hk : k < st.cbx.items.length) :
    (selectDefault env st).currentIndex = (k : Int) ∧
      (selectDefault env st).dataList = st.cbx.dataList := by
  have hc : ¬ st.cbx.count = 0 := by
    simp only [QComboBox.count]
    omega
  have hl : ¬ ((k : Int) = -1) := by omega
  have hgt : (k : Int) > -1 := by omega
  have hin : 0 ≤ (k : Int) ∧ (k : Int) < st.cbx.count := by
    simp only [QComboBox.count]
    omega
  simp only [selectDefault, hc, h, hl, and_false, if_false, hgt, if_true,
    QComboBox.setCurrentIndex, hin, QComboBox.dataList, and_self]

/-- The round trip of the last used profile where it works: once a first dialog
has been constructed over a well-formed file system, leaving only regular files
among the settings entries, a real profile entry has been chosen and accepted, a
second dialog constructed with the same settings files and with that profile
unlocked has that profile selected. -/
theorem last_profile_round_trip (env : Env) (w0 : World) (d1 : PasswordDialog) (w1 : World)
    (i : Int) (name : String) (fs2 : FileSystem)
    (hwf : WellFormed w0.fs)
    (h1 : PasswordDialog.construct env w0 = some (d1, w1))
    (hreg : ∀ n ∈ entryList env w1.fs env.appDataDir ["*.ini"],
      isFileAt w1.fs (toPath (env.appDataDir ++ "/" ++ n)) = true)
    (hi : d1.cbx_Profile.itemData i = some name)
    (hwf2 : WellFormed fs2)
    (hsame : ∀ n, properName n = true → wildcardMatch "*.ini" n = true →
      nodeAt fs2 (toPath (env.appDataDir ++ "/" ++ n)) =
        nodeAt w1.fs (toPath (env.appDataDir ++ "/" ++ n)))
    (hunl : (PasswordDialog.isProfileLocked env fs2 name).1 = false) :
    ∃ d2 w2,
      PasswordDialog.construct env
          { fs := fs2
            cfg := (PasswordDialog.accept
              { d1 with cbx_Profile := d1.cbx_Profile.setCurrentIndex i } w1).2.cfg } =
        some (d2, w2) ∧
      d2.cbx_Profile.itemData d2.cbx_Profile.currentIndex = some name := by
  have hsig := listIniSigned_of_construct env w0 _ h1
  obtain ⟨d, w', hc, hbox, hfs, -⟩ := construct_some env w0 hsig
  rw [h1] at hc
  simp only [Option.some.injEq, Prod.mk.injEq] at hc
  obtain ⟨rfl, rfl⟩ := hc
  obtain ⟨s1, s2, s3⟩ := scanResult_spec env w0 hwf
  have hok0 := entryList_settings_ok env w0.fs hwf env.appDataDir
  have hok2 := entryList_settings_ok env fs2 hwf2 env.appDataDir
  have hscr := entryList_scripts_ok env w0.fs hwf env.scriptFolder
  obtain ⟨hmemd, hi0, hi1, hstr⟩ := dataList_of_itemData _ _ _ hi
  -- the value stored by `accept`
  have hcfg : (PasswordDialog.accept
      { d1 with cbx_Profile := d1.cbx_Profile.setCurrentIndex i } w1).2.cfg.value
        "LastProfile" "" = name := by
    have hcur : (d1.cbx_Profile.setCurrentIndex i).currentIndex = i := by
      simp [QComboBox.setCurrentIndex, hi0, hi1]
    have hge : i ≥ 0 := hi0
    have hstr2 : (d1.cbx_Profile.setCurrentIndex i).itemDataString i = name := by
      rw [← hstr]; rfl
    simp only [PasswordDialog.accept, hcur, hge, if_true, value_setValue_same, hstr2]
  -- a settings entry that is a regular file after the first construction was signed before it
  have hback : ∀ n, properName n = true → wildcardMatch "*.ini" n = true →
      isHidden env (toPath (env.appDataDir ++ "/" ++ n)) = false →
      isFileAt w1.fs (toPath (env.appDataDir ++ "/" ++ n)) = true →
      n ∈ entryList env w0.fs env.appDataDir ["*.ini"] ∧ hasSignature env w0.fs n = true ∧
        nodeAt w1.fs (toPath (env.appDataDir ++ "/" ++ n)) =
          nodeAt w0.fs (toPath (env.appDataDir ++ "/" ++ n)) := by
    intro n hn hm hh hf
    have hl := lastLetter_settingsPath env n hn hm
    have hM : nodeAt w1.fs (toPath (env.appDataDir ++ "/" ++ n)) =
        nodeAt (scanResult env w0).fs (toPath (env.appDataDir ++ "/" ++ n)) := by
      rw [hfs]
      rcases migrateScripts_settings env _ (scanResult env w0).iniNames (scanResult env w0).fs
        hscr _ hl with g | g
      · exact g
      · rw [hfs] at hf
        simp [isFileAt, g.2] at hf
    have hfM : isFileAt (scanResult env w0).fs (toPath (env.appDataDir ++ "/" ++ n)) = true := by
      simpa [isFileAt, hM] using hf
    have hf0 : isFileAt w0.fs (toPath (env.appDataDir ++ "/" ++ n)) = true :=
      isFileAt_of_scanSettings _ _ _ _ _ _ _ hfM
    have hmem0 : n ∈ entryList env w0.fs env.appDataDir ["*.ini"] := by
      rw [mem_entryList, ← settingsPath_eq env n hn]
      refine ⟨?_, by simpa using hm, hh⟩
      unfold isFileAt at hf0
      cases hnd : nodeAt w0.fs (toPath (env.appDataDir ++ "/" ++ n)) with
      | none => simp [hnd] at hf0
      | some x => rfl
    have hs0 : hasSignature env w0.fs n = true := by
      cases hs : hasSignature env w0.fs n with
      | true => rfl
      | false =>
        have := s3 n hmem0 hs
        rw [this] at hfM
        exact absurd hfM (by simp)
    exact ⟨hmem0, hs0, by rw [hM, s2 n hmem0 hs0]⟩
  -- the settings files the second construction finds
  have hall2 : ∀ n ∈ entryList env fs2 env.appDataDir ["*.ini"], hasSignature env fs2 n = true := by
    intro n hn
    have hp := hok2 n hn
    have hmem1 : n ∈ entryList env w1.fs env.appDataDir ["*.ini"] := by
      rw [mem_entryList] at hn ⊢
      rw [← settingsPath_eq env n hp.1] at hn ⊢
      rw [← hsame n hp.1 hp.2]
      exact hn
    obtain ⟨_, hs0, hnode⟩ := hback n hp.1 hp.2
      (by rw [settingsPath_eq env n hp.1]; exact ((mem_entryList _ _ _ _).1 hmem1).2.2)
      (hreg n hmem1)
    rw [hasSignature_congr env fs2 w0.fs n (by rw [hsame n hp.1 hp.2, hnode])]
    exact hs0
  have hname0 : name ∈ (entryList env w0.fs env.appDataDir ["*.ini"]).filter
      (hasSignature env w0.fs) := by
    have hd : d1.cbx_Profile.dataList =
        if (scanResult env w0).cbx.items = [] then [none]
        else ((entryList env w0.fs env.appDataDir ["*.ini"]).filter
          (hasSignature env w0.fs)).map some := by
      rw [hbox, QComboBox.dataList, selectDefault_items]
      split
      · rfl
      · exact s1
    rw [hd] at hmemd
    split at hmemd
    · simp at hmemd
    · simpa using hmemd
  have hname2 : name ∈ entryList env fs2 env.appDataDir ["*.ini"] := by
    obtain ⟨hm0, hs0⟩ := List.mem_filter.1 hname0
    have hp := hok0 name hm0
    have hf0 := isFileAt_of_hasSignature env w0.fs name hs0
    have hl := lastLetter_settingsPath env name hp.1 hp.2
    have hnode : nodeAt w1.fs (toPath (env.appDataDir ++ "/" ++ name)) =
        nodeAt w0.fs (toPath (env.appDataDir ++ "/" ++ name)) := by
      rw [hfs]
      rcases migrateScripts_settings env _ (scanResult env w0).iniNames (scanResult env w0).fs
        hscr _ hl with g | g
      · rw [g, s2 name hm0 hs0]
      · rw [s2 name hm0 hs0] at g
        simp [isFileAt, g.1] at hf0
    rw [mem_entryList, ← settingsPath_eq env name hp.1, hsame name hp.1 hp.2, hnode]
    refine ⟨?_, by simpa using hp.2,
      by rw [settingsPath_eq env name hp.1]; exact ((mem_entryList _ _ _ _).1 hm0).2.2⟩
    unfold isFileAt at hf0
    cases hnd : nodeAt w0.fs (toPath (env.appDataDir ++ "/" ++ name)) with
    | none => simp [hnd] at hf0
    | some x => rfl
  -- the second construction
  obtain ⟨d2, w2, hc2, hbox2, -⟩ := construct_some env
    { fs := fs2
      cfg := (PasswordDialog.accept
        { d1 with cbx_Profile := d1.cbx_Profile.setCurrentIndex i } w1).2.cfg } hsig
  refine ⟨d2, w2, hc2, ?_⟩
  have hscan : scanResult env
      { fs := fs2
        cfg := (PasswordDialog.accept
          { d1 with cbx_Profile := d1.cbx_Profile.setCurrentIndex i } w1).2.cfg } =
      scanSettings env name (entryList env fs2 env.scriptFolder ["*.JLR", "*.JLS"]) 0
        (entryList env fs2 env.appDataDir ["*.ini"])
        { fs := fs2, cbx := { items := [], currentIndex := -1 }, iniNames := []
          lastProfileIndex := -1, firstUnlockedProfileIndex := -1 } := by
    simp only [scanResult, hcfg]
  obtain ⟨k, hk1, hk2⟩ := scanSettings_lastProfileIndex env name
    (entryList env fs2 env.scriptFolder ["*.JLR", "*.JLS"])
    (entryList env fs2 env.appDataDir ["*.ini"]) (entryList_nodup _ _ _) hok2 0
    { fs := fs2, cbx := { items := [], currentIndex := -1 }, iniNames := []
      lastProfileIndex := -1, firstUnlockedProfileIndex := -1 } hall2 hname2 hunl rfl
  obtain ⟨t1, -, -⟩ := scanSettings_spec env name
    (entryList env fs2 env.scriptFolder ["*.JLR", "*.JLS"])
    (entryList env fs2 env.appDataDir ["*.ini"]) (entryList_nodup _ _ _) hok2 0
    { fs := fs2, cbx := { items := [], currentIndex := -1 }, iniNames := []
      lastProfileIndex := -1, firstUnlockedProfileIndex := -1 }
  rw [← hscan] at hk2 t1
  have hfilter : (entryList env fs2 env.appDataDir ["*.ini"]).filter (hasSignature env fs2) =
      entryList env fs2 env.appDataDir ["*.ini"] := by
    rw [List.filter_eq_self]
    exact hall2
  simp only [QComboBox.dataList, List.map_nil, List.nil_append, hfilter] at t1
  have hklt : k < (entryList env fs2 env.appDataDir ["*.ini"]).length := by
    rw [List.getElem?_eq_some_iff] at hk1
    exact hk1.1
  have hlen : (scanResult env
      { fs := fs2
        cfg := (PasswordDialog.accept
          { d1 with cbx_Profile := d1.cbx_Profile.setCurrentIndex i } w1).2.cfg }).cbx.items.length
      = (entryList env fs2 env.appDataDir ["*.ini"]).length := by
    have := congrArg List.length t1
    simpa using this
  obtain ⟨c1, c2⟩ := selectDefault_hit env _ k (by rw [hk2]; simp) (by rw [hlen]; exact hklt)
  rw [hbox2, c1]
  apply itemData_of_dataList
  rw [c2, QComboBox.dataList, t1, List.getElem?_map, hk1]
  rfl

theorem last_profile_round_trip_witness :
    ∃ d2 w2,
      PasswordDialog.construct linuxEnv
          { fs := shiftedAfter.fs
            cfg := (PasswordDialog.accept
              { shiftedDialog with cbx_Profile := shiftedDialog.cbx_Profile.setCurrentIndex 1 }
              shiftedAfter).2.cfg } =
        some (d2, w2) ∧
      d2.cbx_Profile.itemData d2.cbx_Profile.currentIndex = some "c.ini" :=
  last_profile_round_trip linuxEnv shiftedWorld shiftedDialog shiftedAfter 1 "c.ini"
    shiftedAfter.fs (by decide) (by decide) (by decide) (by decide) (by decide)
    (fun _ _ _ => rfl) (by decide)

/-- C10, at a failing input: the directory `x.ini` is listed ahead of the signed
and unlocked profiles `y.ini` and `z.ini`; it has no signature and is not
removed. The first dialog lists `y.ini` and `z.ini` and leaves the file system
as it was; `y.ini`, entry 0, is chosen and accepted; the second dialog, built
over that file system, finds `y.ini` at position 1 of the settings entries, uses
that as its position in the profile list and so has `z.ini` selected. -/
theorem round_trip_selects_other_profile :
    entryList linuxEnv dirEntryWorld.fs linuxEnv.appDataDir ["*.ini"] =
        ["x.ini", "y.ini", "z.ini"] ∧
      (PasswordDialog.isProfileLocked linuxEnv dirEntryWorld.fs "y.ini").1 = false ∧
      (PasswordDialog.construct linuxEnv dirEntryWorld).map
          (fun r => (r.1.cbx_Profile.dataList, r.2.fs)) =
        some ([some "y.ini", some "z.ini"], dirEntryWorld.fs) ∧
      (PasswordDialog.construct linuxEnv dirEntryWorld).bind
          (fun r =>
            (PasswordDialog.construct linuxEnv
                (PasswordDialog.accept
                  { r.1 with cbx_Profile := r.1.cbx_Profile.setCurrentIndex 0 } r.2).2).map
              (fun r2 => ((r.1.cbx_Profile.setCurrentIndex 0).itemData 0,
                r2.2.cfg.value "LastProfile" "",
                r2.1.cbx_Profile.currentIndex,
                r2.1.cbx_Profile.itemData r2.1.cbx_Profile.currentIndex))) =
        some (some "y.ini", "y.ini", 1, some "z.ini") := by
  decide

theorem constructor_default_profile_entry_witness :
    ∃ d w', PasswordDialog.construct linuxEnv shiftedWorld = some (d, w') ∧
      d.cbx_Profile.items ≠ [] := by
  obtain ⟨d, w', hc, _, _, h3⟩ :=
    constructor_default_profile_entry linuxEnv shiftedWorld (by decide) (by decide)
  exact ⟨d, w', hc, h3⟩

/-! ## Deleting a profile -/

theorem lastIdx_eq_none (c : Char) (l : List Char) (h : c ∉ l) : lastIdx c l = none := by
  induction l with
  | nil => rfl
  | cons x xs ih =>
    have hx : ¬ x = c := fun e => h (by simp [e])
    have hxs : c ∉ xs := fun e => h (by simp [e])
    simp [lastIdx, ih hxs, hx]

end QtBitcoinTrader
